import Mathlib

/-!
Shallow embedding of the story-clustering / importance-ranking curator
(`final_feed.py`, with the older rewrite `finalfeed.py` embedded alongside
for the refinement claim).

Modelling conventions:
* Machine floats become `ℚ`; timestamps are `ℚ` seconds since an arbitrary
  epoch, and `datetime.now(timezone.utc)` becomes an explicit `now : ℚ`
  parameter threaded through every function that reads the clock.
* The sentence-embedding model plus cosine similarity is an opaque oracle:
  a function `sim : Nat → Nat → ℚ` giving the similarity of the embeddings
  of articles `i` and `j` of the batch (the code computes embeddings once per
  batch and only ever compares them pairwise, so indexing by position is
  faithful).  The `try/except` around `model.encode` is modelled by an
  `Option` oracle: `none` is an encoding failure.
* Python `dict` becomes an association list `List (String × ℚ)` preserving
  insertion order; `d[k] = v` is `upsert`, `k in d` is `containsKey`.
* Functions that raise on some inputs return `Option`/`Except`:
  `max()` / `[0]` on an empty sequence, `json.load` on malformed input.
* Python's `list.sort(key=…, reverse=True)` / `sorted(…, reverse=True)` is a
  stable descending sort: `List.insertionSort` with the reversed comparison,
  which keeps the original order of elements whose keys tie, exactly like
  CPython's stable sort with `reverse=True`.
* The greedy clustering loops manipulate a `used` set of indices and fetch
  `articles[i]` / `articles[j]`; clusters are built as index lists and mapped
  to articles at the end, which is the same data since the index is only ever
  used to fetch the article at that position.
* Plain-ℚ timestamps model a `datetime` faithfully only where the code
  compares values of one `tzinfo` kind.  `strptime` with either `pubDate`
  format returns a *naive* `datetime` while the `parse_xml_date` fallback
  `datetime.now(timezone.utc)` is *aware*, and Python raises `TypeError` on
  ordering comparisons between the two kinds; the refined `PyDateTime` /
  `ArticleDT` model keeps the kind and surfaces that error path (the `max()`
  call of `calculate_importance` on a cluster mixing parsed and fallback
  timestamps).  Claims that condition on a successfully returned record are
  unaffected: on the inputs where the code returns at all, both models
  compute the same values.
-/

/-- One candidate item, as built by `load_articles_from_temp`
(`final_feed.py` lines 115-122).  `normalized_title` and `pubDateStr` are
carried by the code only to feed the embedding oracle and the serializer, so
they are not needed here; `pubDate` is the parsed timestamp in seconds. -/
structure Article where
  title : String
  link : String
  pubDate : ℚ
  source : String
deriving DecidableEq, Repr, Inhabited

namespace FinalFeed

/-- `MIN_FEED_COUNT = 3` (`final_feed.py` line 21). -/
def MIN_FEED_COUNT : Nat := 3

/-- `SIMILARITY_THRESHOLD = 0.65` (line 22). -/
def SIMILARITY_THRESHOLD : ℚ := 0.65

/-- `MAX_FINAL_ARTICLES = 50` (line 23). -/
def MAX_FINAL_ARTICLES : Nat := 50

/-- `WEIGHT_FEED_COUNT = 10.0` (line 26). -/
def WEIGHT_FEED_COUNT : ℚ := 10

/-- `WEIGHT_REPUTATION = 0.5` (line 27). -/
def WEIGHT_REPUTATION : ℚ := 0.5

/-- `WEIGHT_RECENCY = 2.0` (line 28). -/
def WEIGHT_RECENCY : ℚ := 2

/-- `KEYWORD_BOOST = 15.0` (line 29). -/
def KEYWORD_BOOST : ℚ := 15

/-- `BREAKING_KEYWORDS` (lines 32-36). -/
def BREAKING_KEYWORDS : List String :=
  ["breaking", "urgent", "just in", "developing", "live",
   "war", "attack", "crisis", "death", "killed", "election",
   "breaking news", "update"]

/-- `REPUTATION` source hierarchy (lines 39-54). -/
def REPUTATION : List (String × Nat) :=
  [("The New York Times", 14), ("BBC", 13), ("Al Jazeera", 12),
   ("The Hindu", 11), ("South China Morning Post", 10), ("Eurasia Review", 9),
   ("Asia Times", 8), ("The Moscow Times", 7), ("Middle East Eye", 6),
   ("Middle East Monitor", 5), ("The Daily Star", 4),
   ("The Business Standard", 3), ("Financial Express", 2),
   ("United News Bangladesh", 1)]

/-- `get_reputation_score` (lines 74-76): `REPUTATION.get(source, 0)`. -/
def get_reputation_score (source : String) : Nat :=
  ((REPUTATION.lookup source).getD 0)

/-- Python's `str.lower()` on the character list of a string (the titles and
keywords involved are ASCII, where `Char.toLower` agrees with Python). -/
def lowerString (s : String) : String :=
  ⟨s.data.map Char.toLower⟩

/-- Python's substring test `pat in s`, on character lists: `pat` occurs
contiguously in `s` (the empty pattern occurs in every string). -/
def hasSubstr (pat : List Char) : List Char → Bool
  | [] => pat.isEmpty
  | c :: s => pat.isPrefixOf (c :: s) || hasSubstr pat s

/-- `has_breaking_keywords` (lines 78-81): case-insensitive substring match
of any configured keyword against the title (the keyword list is already
lower-case; the code lowers only the title). -/
def has_breaking_keywords (title : String) : Bool :=
  BREAKING_KEYWORDS.any (fun keyword => hasSubstr keyword.data (lowerString title).data)

/-- A raw `pubDate` string, abstracted by what the two `strptime` attempts of
`parse_xml_date` (lines 83-91) would yield on it: parseable by the first
format, parseable by the second (`... GMT`) format, or by neither. -/
inductive DateStr where
  | fmt1 (t : ℚ)
  | fmt2 (t : ℚ)
  | unparseable
deriving DecidableEq, Repr

/-- `parse_xml_date` (lines 83-91): try the first format, then the second,
and fall back to the current time; it always returns a timestamp. -/
def parse_xml_date (now : ℚ) : DateStr → ℚ
  | .fmt1 t => t
  | .fmt2 t => t
  | .unparseable => now

/-- The inner loop of `cluster_articles` (`final_feed.py` lines 154-161 and
identically `finalfeed.py` lines 79-85): scan the index list `js`, skip
indices already in `used`, and when `simOk i j` holds add `j` to the seed
`i`'s cluster and mark it used.  Returns the added members (in scan order)
and the final `used` set. -/
def scanFrom (simOk : Nat → Nat → Bool) (i : Nat) :
    List Nat → List Nat → List Nat × List Nat
  | [], used => ([], used)
  | j :: js, used =>
    if j ∈ used then
      scanFrom simOk i js used
    else if simOk i j then
      let rest := scanFrom simOk i js (j :: used)
      (j :: rest.1, rest.2)
    else
      scanFrom simOk i js used

/-- The outer loop of `cluster_articles` in `final_feed.py` (lines 147-163):
iterate seeds in input order, skip used ones, seed a cluster with `i`, and
scan `range(i + 1, n)` for members. -/
def clusterStep (simOk : Nat → Nat → Bool) (n : Nat) :
    List Nat → List Nat → List (List Nat)
  | [], _ => []
  | i :: is, used =>
    if i ∈ used then
      clusterStep simOk n is used
    else
      let s := scanFrom simOk i (List.range' (i + 1) (n - (i + 1))) (i :: used)
      (i :: s.1) :: clusterStep simOk n is s.2

/-- Index-level clustering of a batch of `n` articles (lines 143-166). -/
def clusterIndices (simOk : Nat → Nat → Bool) (n : Nat) : List (List Nat) :=
  clusterStep simOk n (List.range n) []

/-- Replace each index by the article at that position. -/
def toArticleClusters (articles : List Article) (cs : List (List Nat)) :
    List (List Article) :=
  cs.map (fun c => c.map (fun k => articles.getD k default))

/-- Whether the similarity of embeddings `i` and `j` meets the threshold
(line 159: `similarity >= SIMILARITY_THRESHOLD`). -/
def simOkOf (sim : Nat → Nat → ℚ) (i j : Nat) : Bool :=
  decide (SIMILARITY_THRESHOLD ≤ sim i j)

/-- `cluster_articles` (lines 128-166).  `oracle = none` models the
`model.encode` call throwing, in which case every article becomes its own
singleton cluster (lines 138-141); otherwise the greedy single-pass
clustering runs over the oracle's similarities. -/
def cluster_articles (oracle : Option (Nat → Nat → ℚ)) (articles : List Article) :
    List (List Article) :=
  if articles = [] then []
  else
    match oracle with
    | none => articles.map (fun a => [a])
    | some sim =>
      toArticleClusters articles (clusterIndices (simOkOf sim) articles.length)

/-- The importance record returned by `calculate_importance`
(lines 196-202). -/
structure Importance where
  score : ℚ
  feed_count : Nat
  avg_reputation : ℚ
  recency_score : ℚ
  has_breaking : Bool
deriving DecidableEq, Repr

/-- The total-score expression of `calculate_importance` (lines 189-194). -/
def scoreOf (unique_sources : Nat) (avg_reputation recency_score breaking_boost : ℚ) : ℚ :=
  unique_sources * WEIGHT_FEED_COUNT +
  avg_reputation * WEIGHT_REPUTATION +
  recency_score * WEIGHT_RECENCY +
  breaking_boost

/-- `calculate_importance` (lines 169-202).  `none` models the `max()` call
raising on an empty cluster; the recency window bound `24` is the literal
used by the code (line 181). -/
def calculate_importance (now : ℚ) (cluster : List Article) : Option Importance :=
  match (cluster.map (fun a => a.pubDate)).max? with
  | none => none
  | some newest_date =>
    let unique_sources := (cluster.map (fun a => a.source)).dedup.length
    let reputations := cluster.map (fun a => (get_reputation_score a.source : ℚ))
    let avg_reputation : ℚ :=
      if reputations = [] then 0 else reputations.sum / (reputations.length : ℚ)
    let hours_old := (now - newest_date) / 3600
    let recency_score := max 0 (24 - hours_old)
    let breaking_boost : ℚ :=
      if cluster.any (fun a => has_breaking_keywords a.title) then KEYWORD_BOOST else 0
    some
      { score := scoreOf unique_sources avg_reputation recency_score breaking_boost
        feed_count := unique_sources
        avg_reputation := avg_reputation
        recency_score := recency_score
        has_breaking := decide (0 < breaking_boost) }

/-- The sort comparison of `select_best_article` (lines 207-211): `a` may
precede `b` in the `reverse=True` sort on the key
`(get_reputation_score(source), pubDate)`, i.e. `a`'s key is lexicographically
at least `b`'s. -/
def repDateGe (a b : Article) : Prop :=
  get_reputation_score b.source < get_reputation_score a.source ∨
    (get_reputation_score a.source = get_reputation_score b.source ∧ b.pubDate ≤ a.pubDate)

instance : DecidableRel repDateGe := fun a b => by
  unfold repDateGe; exact inferInstance

instance : IsTotal Article repDateGe := by
  constructor
  intro a b
  unfold repDateGe
  rcases Nat.lt_trichotomy (get_reputation_score a.source) (get_reputation_score b.source) with h | h | h
  · exact Or.inr (Or.inl h)
  · rcases le_total a.pubDate b.pubDate with hp | hp
    · exact Or.inr (Or.inr ⟨h.symm, hp⟩)
    · exact Or.inl (Or.inr ⟨h, hp⟩)
  · exact Or.inl (Or.inl h)

instance : IsTrans Article repDateGe := by
  constructor
  intro a b c hab hbc
  unfold repDateGe at *
  rcases hab with h1 | ⟨h1, hp1⟩ <;> rcases hbc with h2 | ⟨h2, hp2⟩
  · exact Or.inl (h2.trans h1)
  · exact Or.inl (h2 ▸ h1)
  · exact Or.inl (h1.symm ▸ h2)
  · exact Or.inr ⟨h1.trans h2, hp2.trans hp1⟩

/-- `select_best_article` (lines 204-212): stable-sort the cluster by
reputation then publish time, descending, and take the head; `none` models
the `[0]` indexing raising on an empty cluster.  Python's `sorted` is a
stable sort, and any two stable sorts with respect to the same total
preorder agree, so `List.insertionSort` is a faithful model of it. -/
def select_best_article (cluster : List Article) : Option Article :=
  match cluster.insertionSort repDateGe with
  | [] => none
  | best :: _ => some best

/-- A Python `datetime` as `final_feed.py` actually handles it: a point in
time (`t`, in seconds; a naive value is read as UTC, which is what both
`GMT`-suffixed `pubDate` formats denote and what line 180's
`replace(tzinfo=timezone.utc)` assumes) together with whether the object is
timezone-aware.  `datetime.strptime` with either format of
`parse_xml_date` returns a *naive* value (`%Z` matches `GMT` without setting
`tzinfo`), while the fallback `datetime.now(timezone.utc)` returns an
*aware* one.  The plain-ℚ `pubDate` of `Article` is the refinement of this
type that forgets the kind; it is faithful wherever the code's comparisons
are between values of one kind. -/
structure PyDateTime where
  t : ℚ
  aware : Bool
deriving DecidableEq, Repr, Inhabited

/-- Python's ordering comparison on two `datetime` values: comparing a naive
value with an aware one raises `TypeError`, modelled as `.error ()`;
same-kind values compare by their point in time. -/
def pyLt (a b : PyDateTime) : Except Unit Bool :=
  if a.aware = b.aware then .ok (decide (a.t < b.t)) else .error ()

/-- The loop of Python's builtin `max`: keep the current maximum and replace
it whenever the next element compares greater; the comparison itself may
raise. -/
def pyMaxFrom (cur : PyDateTime) : List PyDateTime → Except Unit PyDateTime
  | [] => .ok cur
  | x :: xs =>
    match pyLt cur x with
    | .error _ => .error ()
    | .ok true => pyMaxFrom x xs
    | .ok false => pyMaxFrom cur xs

/-- Python's `max` over a sequence of `datetime`s: raises on an empty
sequence, and raises `TypeError` as soon as a naive value is compared with
an aware one. -/
def pyMax : List PyDateTime → Except Unit PyDateTime
  | [] => .error ()
  | d :: ds => pyMaxFrom d ds

/-- An article whose publish time keeps its `tzinfo` kind. -/
structure ArticleDT where
  title : String
  link : String
  pubDate : PyDateTime
  source : String
deriving DecidableEq, Repr, Inhabited

/-- Forget the `tzinfo` kind, yielding the plain-ℚ article of the coarser
model. -/
def toArticle (a : ArticleDT) : Article :=
  { title := a.title, link := a.link, pubDate := a.pubDate.t, source := a.source }

/-- `parse_xml_date` (lines 83-91) at the `datetime` level: both `strptime`
formats return a naive value, the fallback `datetime.now(timezone.utc)` an
aware one. -/
def parse_xml_dateDT (now : ℚ) : DateStr → PyDateTime
  | .fmt1 t => ⟨t, false⟩
  | .fmt2 t => ⟨t, false⟩
  | .unparseable => ⟨now, true⟩

/-- `calculate_importance` (lines 169-202) at the `datetime` level: the
`max()` call on line 179 walks the members' publish times and raises
`TypeError` on a cluster mixing naive and aware values (`.error ()`); on
success, `newest_date.replace(tzinfo=timezone.utc)` (line 180) reads the
value as UTC and the scoring proceeds exactly as in
`calculate_importance`. -/
def calculate_importanceDT (now : ℚ) (cluster : List ArticleDT) :
    Except Unit Importance :=
  match pyMax (cluster.map (fun a => a.pubDate)) with
  | .error _ => .error ()
  | .ok newest_date =>
    let unique_sources := (cluster.map (fun a => a.source)).dedup.length
    let reputations := cluster.map (fun a => (get_reputation_score a.source : ℚ))
    let avg_reputation : ℚ :=
      if reputations = [] then 0 else reputations.sum / (reputations.length : ℚ)
    let hours_old := (now - newest_date.t) / 3600
    let recency_score := max 0 (24 - hours_old)
    let breaking_boost : ℚ :=
      if cluster.any (fun a => has_breaking_keywords a.title) then KEYWORD_BOOST else 0
    .ok
      { score := scoreOf unique_sources avg_reputation recency_score breaking_boost
        feed_count := unique_sources
        avg_reputation := avg_reputation
        recency_score := recency_score
        has_breaking := decide (0 < breaking_boost) }

/-- Persisted Seen-Store file content, abstracted by what `open` + `json.load`
would yield: the file is missing, it exists but holds malformed JSON (also
covers an empty file), or it parses to a link → timestamp mapping. -/
inductive FileState where
  | missing
  | malformed
  | parsed (data : List (String × ℚ))
deriving Repr

/-- The retention window of `load_last_seen`: `timedelta(days=7)` in
seconds (line 221). -/
def RETENTION_WINDOW : ℚ := 604800

/-- `load_last_seen` (lines 215-224): a missing file yields an empty mapping;
a parsed file is pruned to the entries strictly newer than the 7-day cutoff;
malformed content makes `json.load` raise, and no handler catches it, so the
exception propagates (`.error`). -/
def load_last_seen (now : ℚ) : FileState → Except Unit (List (String × ℚ))
  | .missing => .ok []
  | .malformed => .error ()
  | .parsed data => .ok (data.filter (fun e => decide (now - RETENTION_WINDOW < e.2)))

/-- Python `link in last_seen` on the dict model. -/
def containsKey (m : List (String × ℚ)) (k : String) : Bool :=
  m.any (fun e => e.1 == k)

/-- Python `d[k] = v` on the dict model: overwrite in place if the key
exists, else append (CPython dicts preserve insertion order). -/
def upsert (m : List (String × ℚ)) (k : String) (v : ℚ) : List (String × ℚ) :=
  if containsKey m k then m.map (fun e => if e.1 == k then (k, v) else e)
  else m ++ [(k, v)]

/-- One surviving cluster as staged for selection (lines 253-257). -/
structure Entry where
  article : Article
  cluster_size : Nat
  importance : Importance
deriving DecidableEq, Repr

/-- The filter-and-score loop of `curate_final_feed` (lines 246-257): keep
clusters with at least `MIN_FEED_COUNT` distinct sources, attaching the
importance record and the representative article.  Clusters that pass the
guard are non-empty, so the two `Option`s are always `some` there. -/
def buildImportant (now : ℚ) (clusters : List (List Article)) : List Entry :=
  clusters.filterMap fun cluster =>
    if MIN_FEED_COUNT ≤ (cluster.map (fun a => a.source)).dedup.length then
      match calculate_importance now cluster, select_best_article cluster with
      | some importance, some best => some ⟨best, cluster.length, importance⟩
      | _, _ => none
    else none

/-- The sort comparison of `important_clusters.sort(key=..["score"],
reverse=True)` (line 262). -/
def scoreGe (x y : Entry) : Prop :=
  y.importance.score ≤ x.importance.score

instance : DecidableRel scoreGe := fun x y => by
  unfold scoreGe; exact inferInstance

instance : IsTotal Entry scoreGe :=
  ⟨fun x y => le_total y.importance.score x.importance.score⟩

instance : IsTrans Entry scoreGe :=
  ⟨fun _ _ _ h1 h2 => le_trans h2 h1⟩

/-- Line 262: stable sort by importance score, descending (`list.sort` is
stable; `List.insertionSort` is the same stable sort). -/
def sortEntries (entries : List Entry) : List Entry :=
  entries.insertionSort scoreGe

/-- The selection loop of `curate_final_feed` (lines 268-276): walk the
sorted entries, accept those whose link is not in the loaded Seen-Store,
marking them seen at the current time in `new_last_seen`, and stop once
`MAX_FINAL_ARTICLES` are accepted. -/
def selectLoop (now : ℚ) (last_seen : List (String × ℚ)) :
    List Entry → List Entry → List (String × ℚ) → List Entry × List (String × ℚ)
  | [], final_articles, new_last_seen => (final_articles, new_last_seen)
  | item :: rest, final_articles, new_last_seen =>
    let acc :=
      if containsKey last_seen item.article.link then (final_articles, new_last_seen)
      else (final_articles ++ [item], upsert new_last_seen item.article.link now)
    if MAX_FINAL_ARTICLES ≤ acc.1.length then acc
    else selectLoop now last_seen rest acc.1 acc.2

/-- Lines 265-276 as one function: copy the loaded store
(`new_last_seen = dict(last_seen)`) and run the selection loop from an empty
output list. -/
def selectFinal (now : ℚ) (last_seen : List (String × ℚ)) (sorted : List Entry) :
    List Entry × List (String × ℚ) :=
  selectLoop now last_seen sorted [] last_seen

/-- `curate_final_feed` (lines 232-331), minus the XML serialization (an
output-collaborator concern): an empty batch returns early without touching
the store; otherwise cluster, filter/score, sort, load the Seen-Store
(re-raising its `json.load` failure, which the top-level handler turns into a
failed run with no store write), select, and persist the updated store.
Returns the selected entries in final order together with the persisted
store state. -/
def curate_final_feed (now : ℚ) (oracle : Option (Nat → Nat → ℚ))
    (articles : List Article) (file : FileState) :
    Except Unit (List Entry × FileState) :=
  if articles = [] then .ok ([], file)
  else
    let clusters := cluster_articles oracle articles
    let important_clusters := sortEntries (buildImportant now clusters)
    match load_last_seen now file with
    | .error e => .error e
    | .ok last_seen =>
      let r := selectFinal now last_seen important_clusters
      .ok (r.1, .parsed r.2)

end FinalFeed

namespace FinalFeedB

/-- `SIMILARITY_THRESHOLD = 0.50` (`finalfeed.py` line 16). -/
def SIMILARITY_THRESHOLD : ℚ := 0.50

/-- The outer loop of `cluster_articles` in `finalfeed.py` (lines 74-86):
same greedy loop, but the inner scan runs over all indices
(`enumerate(articles)`), relying on the `used` check to skip `j ≤ i`. -/
def clusterStep (simOk : Nat → Nat → Bool) (n : Nat) :
    List Nat → List Nat → List (List Nat)
  | [], _ => []
  | i :: is, used =>
    if i ∈ used then
      clusterStep simOk n is used
    else
      let s := FinalFeed.scanFrom simOk i (List.range n) (i :: used)
      (i :: s.1) :: clusterStep simOk n is s.2

/-- Index-level clustering of `finalfeed.py` (lines 68-87). -/
def clusterIndices (simOk : Nat → Nat → Bool) (n : Nat) : List (List Nat) :=
  clusterStep simOk n (List.range n) []

/-- `cluster_articles` (`finalfeed.py` lines 68-87): no empty-batch guard and
no encoding fallback; embeddings are of the raw titles, abstracted by the
oracle `sim`. -/
def cluster_articles (sim : Nat → Nat → ℚ) (articles : List Article) :
    List (List Article) :=
  FinalFeed.toArticleClusters articles
    (clusterIndices (fun i j => decide (SIMILARITY_THRESHOLD ≤ sim i j)) articles.length)

end FinalFeedB

/-! ## Concrete fixtures used by the counterexample and witness theorems -/

/-- Distinct links for the capacity counterexample: `k` repetitions of one
character (injective in `k`). -/
def cexLink (k : Nat) : String :=
  ⟨List.replicate k 'a'⟩

/-- Sources cycling through three distinct publishers. -/
def cexSource (k : Nat) : String :=
  ["s0", "s1", "s2"].getD (k % 3) "s0"

/-- The `k`-th article of the capacity counterexample batch. -/
def cexArticle (k : Nat) : Article :=
  { title := "t", link := cexLink k, pubDate := 0, source := cexSource k }

/-- 153 articles: 51 stories, each reported by three distinct sources. -/
def cexArticles : List Article :=
  (List.range 153).map cexArticle

/-- A similarity oracle making articles of the same 3-block similar and all
other pairs dissimilar. -/
def cexSim (i j : Nat) : ℚ :=
  if i / 3 = j / 3 then 1 else 0

/-- The article triple of story `t`. -/
def cexBlock (t : Nat) : List Article :=
  [cexArticle (3 * t), cexArticle (3 * t + 1), cexArticle (3 * t + 2)]

/-- The importance record every counterexample block evaluates to at
`now = 0`: 3 sources, unknown reputations, full recency bonus, no breaking
keyword: `3·10 + 0·0.5 + 24·2 + 0 = 78`. -/
def cexImp : FinalFeed.Importance :=
  { score := 78, feed_count := 3, avg_reputation := 0, recency_score := 24, has_breaking := false }

/-- The selection entry of story `t` in the counterexample run. -/
def cexEntry (t : Nat) : FinalFeed.Entry :=
  { article := cexArticle (3 * t), cluster_size := 3, importance := cexImp }

/-- The Seen-Store contents persisted by the first counterexample run: the
links of the 50 selected representatives, marked at time 0. -/
def cexStore1 : List (String × ℚ) :=
  (List.range 50).map (fun t => (cexLink (3 * t), (0 : ℚ)))

/-- The number of selected articles of a run, `none` if the run failed. -/
def runCount (r : Except Unit (List FinalFeed.Entry × FinalFeed.FileState)) : Option Nat :=
  match r with
  | .ok p => some p.1.length
  | .error _ => none

/-- The Seen-Store state persisted by a run (unchanged placeholder when the
run failed, in which case nothing is written). -/
def runStore (r : Except Unit (List FinalFeed.Entry × FinalFeed.FileState)) :
    FinalFeed.FileState :=
  match r with
  | .ok p => p.2
  | .error _ => .missing

/-- Witness articles. -/
def wArt1 : Article := { title := "Breaking war news", link := "w1", pubDate := 7200, source := "BBC" }

def wArt2 : Article := { title := "markets digest", link := "w2", pubDate := 3600, source := "BBC" }

def wArt3 : Article := { title := "other piece", link := "w3", pubDate := 0, source := "Unknown Times" }

def wArt4 : Article := { title := "third source", link := "w4", pubDate := 0, source := "The Hindu" }

def wArt5 : Article := { title := "quiet report", link := "w5", pubDate := 3600, source := "Al Jazeera" }

/-- The importance of the cluster `[wArt1, wArt2, wArt3]` at `now = 7200`:
2 distinct sources, reputations `[13, 13, 0]`, newest at `now`, breaking
keyword present: score `2·10 + (26/3)·0.5 + 24·2 + 15 = 262/3`. -/
def wImp : FinalFeed.Importance :=
  { score := 262 / 3, feed_count := 2, avg_reputation := 26 / 3, recency_score := 24,
    has_breaking := true }

/-- The single entry produced by the witness batch `[wArt1, wArt4, wArt5]`
at `now = 7200`: 3 sources, reputations `[13, 11, 12]`, newest at `now`,
breaking keyword present: score `3·10 + 12·0.5 + 24·2 + 15 = 99`. -/
def wImpFull : FinalFeed.Importance :=
  { score := 99, feed_count := 3, avg_reputation := 12, recency_score := 24,
    has_breaking := true }

def wEntryFull : FinalFeed.Entry :=
  { article := wArt1, cluster_size := 3, importance := wImpFull }

/-- Two entries with tied scores, for the sort-stability witness. -/
def wE1 : FinalFeed.Entry := { article := wArt1, cluster_size := 1, importance := cexImp }

def wE2 : FinalFeed.Entry := { article := wArt2, cluster_size := 1, importance := cexImp }

/-! ## Properties of the greedy clustering loops -/

namespace FinalFeed

lemma scan_used_perm (simOk : Nat → Nat → Bool) (i : Nat) (js : List Nat) :
    ∀ used, ((scanFrom simOk i js used).2).Perm ((scanFrom simOk i js used).1 ++ used) := by
  induction js with
  | nil => intro used; simp [scanFrom]
  | cons j js ih =>
    intro used
    by_cases hj : j ∈ used
    · simpa [scanFrom, hj] using ih used
    · by_cases hs : simOk i j = true
      · simp only [scanFrom, if_neg hj, if_pos hs]
        exact (ih (j :: used)).trans List.perm_middle
      · simpa [scanFrom, hj, hs] using ih used

lemma scan_subset (simOk : Nat → Nat → Bool) (i : Nat) (js : List Nat) :
    ∀ used x, x ∈ (scanFrom simOk i js used).1 → x ∈ js := by
  induction js with
  | nil => intro used x hx; simp [scanFrom] at hx
  | cons j js ih =>
    intro used x hx
    by_cases hj : j ∈ used
    · simp only [scanFrom, if_pos hj] at hx
      exact List.mem_cons_of_mem _ (ih used x hx)
    · by_cases hs : simOk i j = true
      · simp only [scanFrom, if_neg hj, if_pos hs] at hx
        rcases List.mem_cons.mp hx with h | h
        · exact h ▸ List.mem_cons_self _ _
        · exact List.mem_cons_of_mem _ (ih (j :: used) x h)
      · simp only [scanFrom, if_neg hj, if_neg hs] at hx
        exact List.mem_cons_of_mem _ (ih used x hx)

lemma scan_mem_used (simOk : Nat → Nat → Bool) (i : Nat) (js : List Nat)
    (used : List Nat) {x : Nat} (hx : x ∈ used) :
    x ∈ (scanFrom simOk i js used).2 :=
  (scan_used_perm simOk i js used).mem_iff.mpr (List.mem_append_right _ hx)

lemma scan_filter_perm (simOk : Nat → Nat → Bool) (i : Nat) (js : List Nat) :
    ∀ used, js.Nodup →
      ((scanFrom simOk i js used).1 ++
          js.filter (fun x => !decide (x ∈ (scanFrom simOk i js used).2))).Perm
        (js.filter (fun x => !decide (x ∈ used))) := by
  induction js with
  | nil => intro used _; simp [scanFrom]
  | cons j js ih =>
    intro used hnd
    have hjjs : j ∉ js := (List.nodup_cons.mp hnd).1
    have hnd' : js.Nodup := (List.nodup_cons.mp hnd).2
    by_cases hj : j ∈ used
    · have hju : j ∈ (scanFrom simOk i js used).2 := scan_mem_used simOk i js used hj
      have hstep : scanFrom simOk i (j :: js) used = scanFrom simOk i js used := by
        simp [scanFrom, hj]
      rw [hstep]
      have f1 : (j :: js).filter (fun x => !decide (x ∈ (scanFrom simOk i js used).2)) =
          js.filter (fun x => !decide (x ∈ (scanFrom simOk i js used).2)) := by
        simp [List.filter_cons, hju]
      have f2 : (j :: js).filter (fun x => !decide (x ∈ used)) =
          js.filter (fun x => !decide (x ∈ used)) := by
        simp [List.filter_cons, hj]
      rw [f1, f2]
      exact ih used hnd'
    · by_cases hs : simOk i j = true
      · have hju : j ∈ (scanFrom simOk i js (j :: used)).2 :=
          scan_mem_used simOk i js (j :: used) (List.mem_cons_self _ _)
        have hstep : scanFrom simOk i (j :: js) used =
            (j :: (scanFrom simOk i js (j :: used)).1, (scanFrom simOk i js (j :: used)).2) := by
          simp [scanFrom, hj, hs]
        rw [hstep]
        have f1 : (j :: js).filter
              (fun x => !decide (x ∈ (scanFrom simOk i js (j :: used)).2)) =
            js.filter (fun x => !decide (x ∈ (scanFrom simOk i js (j :: used)).2)) := by
          simp [List.filter_cons, hju]
        have f2 : (j :: js).filter (fun x => !decide (x ∈ used)) =
            j :: js.filter (fun x => !decide (x ∈ used)) := by
          simp [List.filter_cons, hj]
        show ((j :: (scanFrom simOk i js (j :: used)).1) ++
            (j :: js).filter (fun x => !decide (x ∈ (scanFrom simOk i js (j :: used)).2))).Perm
          ((j :: js).filter (fun x => !decide (x ∈ used)))
        rw [f1, f2, List.cons_append]
        apply List.Perm.cons
        have heq : js.filter (fun x => !decide (x ∈ (j :: used))) =
            js.filter (fun x => !decide (x ∈ used)) := by
          apply List.filter_congr
          intro x hx
          have hxj : x ≠ j := fun h => hjjs (h ▸ hx)
          simp [List.mem_cons, hxj]
        exact heq ▸ ih (j :: used) hnd'
      · have hjc : j ∉ (scanFrom simOk i js used).1 := fun h => hjjs (scan_subset simOk i js used j h)
        have hju : j ∉ (scanFrom simOk i js used).2 := by
          intro h
          rcases List.mem_append.mp ((scan_used_perm simOk i js used).mem_iff.mp h) with h' | h'
          · exact hjc h'
          · exact hj h'
        have hstep : scanFrom simOk i (j :: js) used = scanFrom simOk i js used := by
          simp [scanFrom, hj, hs]
        rw [hstep]
        have f1 : (j :: js).filter (fun x => !decide (x ∈ (scanFrom simOk i js used).2)) =
            j :: js.filter (fun x => !decide (x ∈ (scanFrom simOk i js used).2)) := by
          simp [List.filter_cons, hju]
        have f2 : (j :: js).filter (fun x => !decide (x ∈ used)) =
            j :: js.filter (fun x => !decide (x ∈ used)) := by
          simp [List.filter_cons, hj]
        rw [f1, f2]
        exact List.perm_middle.trans (List.Perm.cons j (ih used hnd'))

lemma clusterStep_nonempty (simOk : Nat → Nat → Bool) (n : Nat) (is : List Nat) :
    ∀ used c, c ∈ clusterStep simOk n is used → c ≠ [] := by
  induction is with
  | nil => intro used c hc; simp [clusterStep] at hc
  | cons i is ih =>
    intro used c hc
    by_cases hi : i ∈ used
    · exact ih used c (by simpa [clusterStep, hi] using hc)
    · simp only [clusterStep, if_neg hi, List.mem_cons] at hc
      rcases hc with h | h
      · simp [h]
      · exact ih _ c h

lemma clusterStep_flatten_perm (simOk : Nat → Nat → Bool) (n : Nat) :
    ∀ (m i : Nat) (used : List Nat), i + m = n →
      ((clusterStep simOk n (List.range' i m) used).flatten).Perm
        ((List.range' i m).filter (fun x => !decide (x ∈ used))) := by
  intro m
  induction m with
  | zero => intro i used _; simp [clusterStep]
  | succ m ih =>
    intro i used hn
    rw [List.range'_succ]
    by_cases hi : i ∈ used
    · have hstep : clusterStep simOk n (i :: List.range' (i + 1) m) used =
          clusterStep simOk n (List.range' (i + 1) m) used := by
        simp [clusterStep, hi]
      have f2 : (i :: List.range' (i + 1) m).filter (fun x => !decide (x ∈ used)) =
          (List.range' (i + 1) m).filter (fun x => !decide (x ∈ used)) := by
        simp [List.filter_cons, hi]
      rw [hstep, f2]
      exact ih (i + 1) used (by omega)
    · have hinner : n - (i + 1) = m := by omega
      have hstep : clusterStep simOk n (i :: List.range' (i + 1) m) used =
          (i :: (scanFrom simOk i (List.range' (i + 1) m) (i :: used)).1) ::
            clusterStep simOk n (List.range' (i + 1) m)
              ((scanFrom simOk i (List.range' (i + 1) m) (i :: used)).2) := by
        simp [clusterStep, hi, hinner]
      have f2 : (i :: List.range' (i + 1) m).filter (fun x => !decide (x ∈ used)) =
          i :: (List.range' (i + 1) m).filter (fun x => !decide (x ∈ used)) := by
        simp [List.filter_cons, hi]
      rw [hstep, f2, List.flatten_cons, List.cons_append]
      apply List.Perm.cons
      have h1 := ih (i + 1) ((scanFrom simOk i (List.range' (i + 1) m) (i :: used)).2) (by omega)
      have h2 := scan_filter_perm simOk i (List.range' (i + 1) m) (i :: used)
        (List.nodup_range' (i + 1) m)
      have h3 : (List.range' (i + 1) m).filter (fun x => !decide (x ∈ (i :: used))) =
          (List.range' (i + 1) m).filter (fun x => !decide (x ∈ used)) := by
        apply List.filter_congr
        intro x hx
        have hxi : x ≠ i := by
          have := (List.mem_range'_1.mp hx).1
          omega
        simp [List.mem_cons, hxi]
      exact ((List.Perm.append_left _ h1).trans h2).trans (h3 ▸ List.Perm.refl _)

lemma map_getD_range (l : List Article) :
    (List.range l.length).map (fun k => l.getD k default) = l := by
  apply List.ext_getElem
  · simp
  · intro k h1 h2
    simp [List.getD_eq_getElem?_getD, List.getElem?_eq_getElem h2]

lemma clusterIndices_flatten_perm (simOk : Nat → Nat → Bool) (n : Nat) :
    ((clusterIndices simOk n).flatten).Perm (List.range n) := by
  have h := clusterStep_flatten_perm simOk n n 0 [] (by omega)
  rw [List.range_eq_range']
  simpa [clusterIndices, List.range_eq_range'] using h

lemma scan_skip (simOk : Nat → Nat → Bool) (i : Nat) (l1 : List Nat) :
    ∀ (l2 used : List Nat), (∀ x ∈ l1, x ∈ used) →
      scanFrom simOk i (l1 ++ l2) used = scanFrom simOk i l2 used := by
  induction l1 with
  | nil => intro l2 used _; rfl
  | cons x l1 ih =>
    intro l2 used hall
    have hx : x ∈ used := hall x (List.mem_cons_self _ _)
    simp only [List.cons_append, scanFrom, if_pos hx]
    exact ih l2 used (fun y hy => hall y (List.mem_cons_of_mem _ hy))

end FinalFeed

lemma clusterStepAB (simOk : Nat → Nat → Bool) (n : Nat) :
    ∀ (m i : Nat) (used : List Nat), i + m = n → (∀ k, k < i → k ∈ used) →
      FinalFeed.clusterStep simOk n (List.range' i m) used =
        FinalFeedB.clusterStep simOk n (List.range' i m) used := by
  intro m
  induction m with
  | zero => intro i used _ _; rfl
  | succ m ih =>
    intro i used hn hinv
    rw [List.range'_succ]
    by_cases hi : i ∈ used
    · simp only [FinalFeed.clusterStep, FinalFeedB.clusterStep, if_pos hi]
      exact ih (i + 1) used (by omega) (fun k hk => by
        rcases Nat.lt_succ_iff_lt_or_eq.mp hk with h | h
        · exact hinv k h
        · exact h ▸ hi)
    · have hin : i + 1 ≤ n := by omega
      have hdecomp : List.range n = List.range (i + 1) ++ List.range' (i + 1) (n - (i + 1)) := by
        rw [List.range_eq_range', List.range_eq_range']
        have h := List.range'_append 0 (i + 1) (n - (i + 1)) 1
        simp only [Nat.one_mul, Nat.zero_add] at h
        rw [h, Nat.sub_add_cancel hin]
      have hpre : ∀ x ∈ List.range (i + 1), x ∈ (i :: used) := by
        intro x hx
        rcases Nat.lt_succ_iff_lt_or_eq.mp (List.mem_range.mp hx) with h | h
        · exact List.mem_cons_of_mem _ (hinv x h)
        · exact h ▸ List.mem_cons_self _ _
      have hscan : FinalFeed.scanFrom simOk i (List.range n) (i :: used) =
          FinalFeed.scanFrom simOk i (List.range' (i + 1) (n - (i + 1))) (i :: used) := by
        rw [hdecomp]
        exact FinalFeed.scan_skip simOk i _ _ _ hpre
      have hinv' : ∀ k, k < i + 1 →
          k ∈ (FinalFeed.scanFrom simOk i (List.range' (i + 1) (n - (i + 1))) (i :: used)).2 := by
        intro k hk
        apply FinalFeed.scan_mem_used
        rcases Nat.lt_succ_iff_lt_or_eq.mp hk with h | h
        · exact List.mem_cons_of_mem _ (hinv k h)
        · exact h ▸ List.mem_cons_self _ _
      have hinner : n - (i + 1) = m := by omega
      simp only [FinalFeed.clusterStep, FinalFeedB.clusterStep, if_neg hi, hscan]
      rw [hinner] at hinv' ⊢
      exact congrArg _ (ih (i + 1) _ (by omega) hinv')

/-- Claim C1: `cluster_articles` maps the empty batch to the empty cluster
list, and on every batch (for every oracle, including the encoding-failure
fallback) it returns non-empty clusters whose concatenation is a permutation
of the input articles — that is, a sequence of non-empty disjoint groups
covering all input articles, built by the greedy single-pass algorithm
embodied in `clusterStep`/`scanFrom` (each unused `i` seeds a cluster and
each unused `j > i` joins it exactly when the seed-to-`j` similarity meets
`SIMILARITY_THRESHOLD`). -/
theorem claim_C1_clustering_partition (oracle : Option (Nat → Nat → ℚ))
    (articles : List Article) :
    FinalFeed.cluster_articles oracle [] = [] ∧
    (∀ c ∈ FinalFeed.cluster_articles oracle articles, c ≠ []) ∧
    ((FinalFeed.cluster_articles oracle articles).flatten).Perm articles := by
  refine ⟨by simp [FinalFeed.cluster_articles], ?_, ?_⟩
  · intro c hc
    by_cases hemp : articles = []
    · simp [FinalFeed.cluster_articles, hemp] at hc
    · cases oracle with
      | none =>
        simp only [FinalFeed.cluster_articles, if_neg hemp, List.mem_map] at hc
        obtain ⟨a, _, ha⟩ := hc
        simp [← ha]
      | some sim =>
        simp only [FinalFeed.cluster_articles, FinalFeed.toArticleClusters, if_neg hemp,
          List.mem_map] at hc
        obtain ⟨ic, hic, hc'⟩ := hc
        have hne := FinalFeed.clusterStep_nonempty (FinalFeed.simOkOf sim) articles.length
          (List.range articles.length) [] ic hic
        intro h
        exact hne (by simpa [← hc', List.map_eq_nil_iff] using h)
  · by_cases hemp : articles = []
    · simp [FinalFeed.cluster_articles, hemp]
    · cases oracle with
      | none =>
        simp only [FinalFeed.cluster_articles, if_neg hemp]
        have hflat : ∀ (l : List Article), ((l.map (fun a => [a])).flatten) = l := by
          intro l
          induction l with
          | nil => rfl
          | cons a as iha => simp [iha]
        rw [hflat]
      | some sim =>
        simp only [FinalFeed.cluster_articles, FinalFeed.toArticleClusters, if_neg hemp]
        rw [← List.map_flatten]
        have hperm := FinalFeed.clusterIndices_flatten_perm (FinalFeed.simOkOf sim) articles.length
        have := hperm.map (fun k => articles.getD k default)
        rwa [FinalFeed.map_getD_range] at this

/-- Claim C10: the two greedy clustering implementations are equivalent at
the level of index partitions: for every Boolean similarity decision and
every batch size, `FinalFeed.clusterStep` (inner scan over `j > i` only,
`final_feed.py`) and `FinalFeedB.clusterStep` (inner scan over all `j`,
skipping used ones, `finalfeed.py`) produce the same list of index clusters,
because every index below the current seed is already used when the seed
opens its cluster. -/
theorem claim_C10_scan_equivalence (simOk : Nat → Nat → Bool) (n : Nat) :
    FinalFeed.clusterIndices simOk n = FinalFeedB.clusterIndices simOk n := by
  unfold FinalFeed.clusterIndices FinalFeedB.clusterIndices
  rw [List.range_eq_range']
  exact clusterStepAB simOk n n 0 [] (by omega) (fun k hk => absurd hk (Nat.not_lt_zero k))

/-! ## Properties of the importance scorer and the representative selector -/

namespace FinalFeed

lemma calculate_importance_spec (now : ℚ) (cluster : List Article) (hne : cluster ≠ []) :
    ∃ newest, (cluster.map (fun a => a.pubDate)).max? = some newest ∧
      calculate_importance now cluster = some
        { score := scoreOf ((cluster.map (fun a => a.source)).dedup.length)
            (((cluster.map (fun a => (get_reputation_score a.source : ℚ))).sum) / (cluster.length : ℚ))
            (max 0 (24 - (now - newest) / 3600))
            (if cluster.any (fun a => has_breaking_keywords a.title) then KEYWORD_BOOST else 0)
          feed_count := (cluster.map (fun a => a.source)).dedup.length
          avg_reputation :=
            ((cluster.map (fun a => (get_reputation_score a.source : ℚ))).sum) / (cluster.length : ℚ)
          recency_score := max 0 (24 - (now - newest) / 3600)
          has_breaking := decide
            (0 < (if cluster.any (fun a => has_breaking_keywords a.title) then KEYWORD_BOOST else 0)) } := by
  have hmapne : cluster.map (fun a => a.pubDate) ≠ [] := by
    simpa [List.map_eq_nil_iff] using hne
  cases hm : (cluster.map (fun a => a.pubDate)).max? with
  | none => exact absurd (List.max?_eq_none_iff.mp hm) hmapne
  | some newest =>
    refine ⟨newest, rfl, ?_⟩
    have hrepne : cluster.map (fun a => (get_reputation_score a.source : ℚ)) ≠ [] := by
      simpa [List.map_eq_nil_iff] using hne
    simp only [calculate_importance, hm, if_neg hrepne, List.length_map]

lemma calculate_importance_isSome (now : ℚ) (cluster : List Article) (hne : cluster ≠ []) :
    (calculate_importance now cluster).isSome := by
  obtain ⟨newest, _, heq⟩ := calculate_importance_spec now cluster hne
  simp [heq]

lemma select_best_article_isSome (cluster : List Article) (hne : cluster ≠ []) :
    (select_best_article cluster).isSome := by
  unfold select_best_article
  cases hs : cluster.insertionSort repDateGe with
  | nil =>
    have := List.length_insertionSort repDateGe cluster
    rw [hs] at this
    exact absurd (List.length_eq_zero.mp this.symm) hne
  | cons b rest => rfl

lemma repDateGe_refl (a : Article) : repDateGe a a :=
  Or.inr ⟨rfl, le_refl _⟩

end FinalFeed

/-- Claim C3: for every non-empty cluster, `calculate_importance` reports
`feed_count` equal to the number of distinct sources (not articles),
`recency_score` equal to `max 0 (24 − hours since the newest publish time)`
and hence never negative, and a total score equal to
`feed_count·W_FEED + avg_reputation·W_REPUTATION + recency_score·W_RECENCY`
plus `KEYWORD_BOOST` exactly when some member's title contains a
breaking-news keyword. -/
theorem claim_C3_importance (now : ℚ) (cluster : List Article) (imp : FinalFeed.Importance)
    (h : FinalFeed.calculate_importance now cluster = some imp) :
    imp.feed_count = (cluster.map (fun a => a.source)).toFinset.card ∧
    (∃ newest, (cluster.map (fun a => a.pubDate)).max? = some newest ∧
      imp.recency_score = max 0 (24 - (now - newest) / 3600)) ∧
    0 ≤ imp.recency_score ∧
    imp.score = (imp.feed_count : ℚ) * FinalFeed.WEIGHT_FEED_COUNT +
      imp.avg_reputation * FinalFeed.WEIGHT_REPUTATION +
      imp.recency_score * FinalFeed.WEIGHT_RECENCY +
      (if imp.has_breaking then FinalFeed.KEYWORD_BOOST else 0) ∧
    (imp.has_breaking = true ↔ ∃ a ∈ cluster, FinalFeed.has_breaking_keywords a.title = true) := by
  by_cases hne : cluster = []
  · subst hne
    simp [FinalFeed.calculate_importance] at h
  · obtain ⟨newest, hmax, heq⟩ := FinalFeed.calculate_importance_spec now cluster hne
    rw [heq] at h
    obtain rfl : _ = imp := Option.some.inj h
    refine ⟨(List.card_toFinset _).symm, ⟨newest, hmax, rfl⟩, le_max_left _ _, ?_, ?_⟩
    · by_cases hbk : cluster.any (fun a => FinalFeed.has_breaking_keywords a.title) = true
      · simp only [hbk, if_pos]
        have hpos : (0 : ℚ) < FinalFeed.KEYWORD_BOOST := by norm_num [FinalFeed.KEYWORD_BOOST]
        simp [FinalFeed.scoreOf, hpos]
      · simp only [hbk]
        simp [FinalFeed.scoreOf, hbk]
    · by_cases hbk : cluster.any (fun a => FinalFeed.has_breaking_keywords a.title) = true
      · have hpos : (0 : ℚ) < FinalFeed.KEYWORD_BOOST := by norm_num [FinalFeed.KEYWORD_BOOST]
        simp [hbk, hpos, List.any_eq_true.mp hbk]
      · simp only [hbk]
        constructor
        · intro hcontr
          simp at hcontr
        · intro hex
          exact absurd (List.any_eq_true.mpr hex) hbk

/-- `pyMaxFrom` succeeds whenever the current value and every remaining
element have the same `tzinfo` kind: each comparison is then between
same-kind values and never raises. -/
theorem pyMaxFrom_isOk (k : Bool) (ds : List FinalFeed.PyDateTime) :
    ∀ cur : FinalFeed.PyDateTime, cur.aware = k → (∀ d ∈ ds, d.aware = k) →
      (FinalFeed.pyMaxFrom cur ds).isOk = true := by
  induction ds with
  | nil => intro cur _ _; rfl
  | cons x xs ih =>
    intro cur hc hall
    have hx : x.aware = k := hall x (List.mem_cons_self _ _)
    have hxs : ∀ d ∈ xs, d.aware = k := fun d hd => hall d (List.mem_cons_of_mem _ hd)
    have hlt : FinalFeed.pyLt cur x = .ok (decide (cur.t < x.t)) := by
      unfold FinalFeed.pyLt
      rw [hc, hx]
      simp
    unfold FinalFeed.pyMaxFrom
    rw [hlt]
    rcases Bool.eq_false_or_eq_true (decide (cur.t < x.t)) with hd | hd <;> rw [hd]
    · exact ih x hx hxs
    · exact ih cur hc hxs

/-- Python's `max` succeeds on a non-empty sequence of `datetime`s of one
uniform `tzinfo` kind. -/
theorem pyMax_isOk (k : Bool) (ds : List FinalFeed.PyDateTime) (hne : ds ≠ [])
    (hall : ∀ d ∈ ds, d.aware = k) : (FinalFeed.pyMax ds).isOk = true := by
  cases ds with
  | nil => exact absurd rfl hne
  | cons d ds' =>
    exact pyMaxFrom_isOk k ds' d (hall d (List.mem_cons_self _ _))
      (fun x hx => hall x (List.mem_cons_of_mem _ hx))

/-- The `datetime`-level scorer succeeds on every non-empty cluster whose
publish timestamps are uniformly of one `tzinfo` kind. -/
theorem calculate_importanceDT_isOk (now : ℚ) (k : Bool)
    (cluster : List FinalFeed.ArticleDT) (hne : cluster ≠ [])
    (hall : ∀ a ∈ cluster, a.pubDate.aware = k) :
    (FinalFeed.calculate_importanceDT now cluster).isOk = true := by
  have hmap : ∀ d ∈ cluster.map (fun a => a.pubDate), d.aware = k := by
    intro d hd
    obtain ⟨a, ha, rfl⟩ := List.mem_map.mp hd
    exact hall a ha
  have hmne : cluster.map (fun a => a.pubDate) ≠ [] :=
    fun h => hne (List.map_eq_nil_iff.mp h)
  have hok := pyMax_isOk k _ hmne hmap
  unfold FinalFeed.calculate_importanceDT
  cases hp : FinalFeed.pyMax (cluster.map (fun a => a.pubDate)) with
  | error e => rw [hp] at hok; exact absurd hok (by simp [Except.toBool])
  | ok newest => rfl

/-- Claim C5, counterexample to the original statement: the original claim
asserts that downstream operations complete for clusters mixing parseable
and unparseable timestamps.  In the code, both `strptime` formats return a
naive `datetime` while the fallback is timezone-aware, so the `max()` call
on line 179 of `calculate_importance` compares a naive with an aware value
on such a mixed cluster and raises `TypeError`, aborting the run: at a
concrete two-article cluster with one parsed and one unparseable timestamp,
the `datetime`-level scorer raises instead of returning a record. -/
theorem claim_C5_counterexample :
    FinalFeed.parse_xml_dateDT 7200 .unparseable = ⟨7200, true⟩ ∧
    FinalFeed.calculate_importanceDT 7200
      [{ title := "a", link := "m1",
         pubDate := FinalFeed.parse_xml_dateDT 7200 (.fmt1 3600), source := "BBC" },
       { title := "b", link := "m2",
         pubDate := FinalFeed.parse_xml_dateDT 7200 .unparseable, source := "The Hindu" }] =
      .error () :=
  ⟨rfl, rfl⟩

/-- Claim C5 (amended): an unparseable publish timestamp is replaced by the
current time (`parse_xml_date` falls back to `now`, never a missing value),
but the fallback is timezone-aware while `strptime`-parsed timestamps are
naive.  The downstream cluster operations complete for every non-empty
cluster whose publish timestamps are uniformly of one kind — in particular
a cluster whose members' timestamps are all unparseable, or all parseable —
while a cluster mixing the two kinds makes `max()` raise `TypeError` and
the run fail (the counterexample above).  Under the uniformity hypothesis
every comparison the representative selector's sort can make is also
between same-kind values, so the total plain-ℚ selector is a faithful model
of it there and selection succeeds as well. -/
theorem claim_C5_timestamp_fallback (now : ℚ) (k : Bool)
    (cluster : List FinalFeed.ArticleDT) (hne : cluster ≠ [])
    (hall : ∀ a ∈ cluster, a.pubDate.aware = k) :
    FinalFeed.parse_xml_dateDT now .unparseable = ⟨now, true⟩ ∧
    (FinalFeed.calculate_importanceDT now cluster).isOk = true ∧
    (FinalFeed.select_best_article (cluster.map FinalFeed.toArticle)).isSome := by
  refine ⟨rfl, calculate_importanceDT_isOk now k cluster hne hall, ?_⟩
  exact FinalFeed.select_best_article_isSome _ (fun h => hne (List.map_eq_nil_iff.mp h))

/-- Claim C8: the representative selector returns a member of the cluster
that is maximal for the key `(reputation of source, publish time)` in
lexicographic descending order (`repDateGe`), so an article from a strictly
higher-reputation source is always preferred over one from a
lower-reputation source regardless of the members' order; determinism holds
because `select_best_article` is a pure function of the cluster. -/
theorem claim_C8_representative (cluster : List Article) (b : Article)
    (h : FinalFeed.select_best_article cluster = some b) :
    b ∈ cluster ∧
    (∀ a ∈ cluster, FinalFeed.repDateGe b a) ∧
    (∀ a1 ∈ cluster, ∀ a2 ∈ cluster,
      FinalFeed.get_reputation_score a2.source < FinalFeed.get_reputation_score a1.source →
        b ≠ a2) := by
  unfold FinalFeed.select_best_article at h
  cases hs : cluster.insertionSort FinalFeed.repDateGe with
  | nil => rw [hs] at h; exact absurd h (by simp)
  | cons hd rest =>
    rw [hs] at h
    have hb : hd = b := Option.some.inj h
    have hperm := List.perm_insertionSort FinalFeed.repDateGe cluster
    rw [hs] at hperm
    have hmem : hd ∈ cluster := hperm.mem_iff.mp (List.mem_cons_self _ _)
    have hsorted := List.sorted_insertionSort FinalFeed.repDateGe cluster
    rw [hs] at hsorted
    have hmax : ∀ a ∈ cluster, FinalFeed.repDateGe hd a := by
      intro a ha
      have hmem' : a ∈ hd :: rest := hperm.mem_iff.mpr ha
      rcases List.mem_cons.mp hmem' with h' | h'
      · exact h' ▸ FinalFeed.repDateGe_refl hd
      · exact List.rel_of_sorted_cons hsorted a h'
    refine ⟨hb ▸ hmem, fun a ha => hb ▸ hmax a ha, ?_⟩
    intro a1 ha1 a2 _ hlt hba2
    have hge : FinalFeed.get_reputation_score a1.source ≤
        FinalFeed.get_reputation_score hd.source := by
      rcases hmax a1 ha1 with h' | ⟨h', _⟩
      · exact Nat.le_of_lt h'
      · exact Nat.le_of_eq h'.symm
    have hda2 : hd = a2 := hb.trans hba2
    rw [hda2] at hge
    omega

/-- Claim C9: the score expression is strictly monotone in `feed_count`
(holding the other inputs fixed), and once the newest member is at least the
24-hour window old the recency bonus is exactly zero, so the score equals —
and in general never drops below — the baseline score computed with zero
recency bonus. -/
theorem claim_C9_monotonicity :
    (∀ (fc1 fc2 : Nat) (avg rec boost : ℚ), fc1 < fc2 →
      FinalFeed.scoreOf fc1 avg rec boost < FinalFeed.scoreOf fc2 avg rec boost) ∧
    (∀ (now : ℚ) (cluster : List Article) (imp : FinalFeed.Importance) (newest : ℚ),
      FinalFeed.calculate_importance now cluster = some imp →
      (cluster.map (fun a => a.pubDate)).max? = some newest →
      24 ≤ (now - newest) / 3600 →
      imp.recency_score = 0 ∧
      imp.score = FinalFeed.scoreOf imp.feed_count imp.avg_reputation 0
        (if imp.has_breaking then FinalFeed.KEYWORD_BOOST else 0)) ∧
    (∀ (fc : Nat) (avg rec boost : ℚ), 0 ≤ rec →
      FinalFeed.scoreOf fc avg 0 boost ≤ FinalFeed.scoreOf fc avg rec boost) := by
  refine ⟨?_, ?_, ?_⟩
  · intro fc1 fc2 avg rec boost hlt
    have hcast : (fc1 : ℚ) < (fc2 : ℚ) := by exact_mod_cast hlt
    simp only [FinalFeed.scoreOf, FinalFeed.WEIGHT_FEED_COUNT]
    have h10 : (fc1 : ℚ) * 10 < (fc2 : ℚ) * 10 := by linarith
    linarith
  · intro now cluster imp newest h hmax h24
    by_cases hne : cluster = []
    · subst hne
      simp [FinalFeed.calculate_importance] at h
    · obtain ⟨newest', hmax', heq⟩ := FinalFeed.calculate_importance_spec now cluster hne
      have hnn : newest' = newest := Option.some.inj (hmax'.symm.trans hmax)
      rw [hnn] at heq
      rw [heq] at h
      obtain rfl : _ = imp := Option.some.inj h
      have hrec : max 0 (24 - (now - newest) / 3600) = 0 :=
        max_eq_left (by linarith)
      constructor
      · exact hrec
      · by_cases hbk : cluster.any (fun a => FinalFeed.has_breaking_keywords a.title) = true
        · have hpos : (0 : ℚ) < FinalFeed.KEYWORD_BOOST := by norm_num [FinalFeed.KEYWORD_BOOST]
          simp [hbk, hpos, hrec]
        · simp [hbk, hrec]
  · intro fc avg rec boost hrec
    simp only [FinalFeed.scoreOf, FinalFeed.WEIGHT_RECENCY]
    have h2 : (0 : ℚ) * 2 ≤ rec * 2 := by linarith
    linarith

/-! ## Properties of the Seen-Store and the selection loop -/

namespace FinalFeed

lemma containsKey_upsert_self (m : List (String × ℚ)) (k : String) (v : ℚ) :
    containsKey (upsert m k v) k = true := by
  unfold upsert
  by_cases hk : containsKey m k = true
  · rw [if_pos hk]
    unfold containsKey at hk ⊢
    rw [List.any_eq_true] at hk ⊢
    obtain ⟨e, he, hek⟩ := hk
    exact ⟨(k, v), List.mem_map.mpr ⟨e, he, by simp [hek]⟩, by simp⟩
  · rw [if_neg hk]
    unfold containsKey
    rw [List.any_eq_true]
    exact ⟨(k, v), List.mem_append_right _ (List.mem_singleton.mpr rfl), by simp⟩

lemma containsKey_upsert_mono (m : List (String × ℚ)) (k : String) (v : ℚ) (k' : String)
    (h : containsKey m k' = true) : containsKey (upsert m k v) k' = true := by
  unfold upsert
  by_cases hk : containsKey m k = true
  · rw [if_pos hk]
    unfold containsKey at h ⊢
    rw [List.any_eq_true] at h ⊢
    obtain ⟨e, he, hek⟩ := h
    by_cases hekk : e.1 == k
    · have h1 : e.1 = k' := by simpa using hek
      have h2 : e.1 = k := by simpa using hekk
      exact ⟨(k, v), List.mem_map.mpr ⟨e, he, by simp [hekk]⟩, by simp [← h2, h1]⟩
    · exact ⟨e, List.mem_map.mpr ⟨e, he, by simp [hekk]⟩, hek⟩
  · rw [if_neg hk]
    unfold containsKey at h ⊢
    rw [List.any_eq_true] at h ⊢
    obtain ⟨e, he, hek⟩ := h
    exact ⟨e, List.mem_append_left _ he, hek⟩

lemma upsert_values (m : List (String × ℚ)) (k : String) (v : ℚ) (P : ℚ → Prop)
    (hm : ∀ p ∈ m, P p.2) (hv : P v) : ∀ p ∈ upsert m k v, P p.2 := by
  intro p hp
  unfold upsert at hp
  by_cases hk : containsKey m k = true
  · rw [if_pos hk] at hp
    obtain ⟨e, he, hep⟩ := List.mem_map.mp hp
    by_cases hekk : e.1 == k
    · rw [if_pos hekk] at hep
      rw [← hep]
      exact hv
    · rw [if_neg hekk] at hep
      exact hep ▸ hm e he
  · rw [if_neg hk] at hp
    rcases List.mem_append.mp hp with h | h
    · exact hm p h
    · rw [List.mem_singleton.mp h]
      exact hv

lemma selectLoop_take (now : ℚ) (seen : List (String × ℚ)) (rest : List Entry) :
    ∀ (final : List Entry) (ns : List (String × ℚ)),
      final.length < MAX_FINAL_ARTICLES →
      (selectLoop now seen rest final ns).1 =
        final ++ (rest.filter (fun e => !containsKey seen e.article.link)).take
          (MAX_FINAL_ARTICLES - final.length) := by
  induction rest with
  | nil => intro final ns _; simp [selectLoop]
  | cons item rest ih =>
    intro final ns hlen
    by_cases hseen : containsKey seen item.article.link = true
    · have hstep : selectLoop now seen (item :: rest) final ns =
          selectLoop now seen rest final ns := by
        simp only [selectLoop, if_pos hseen]
        rw [if_neg (by omega : ¬ MAX_FINAL_ARTICLES ≤ final.length)]
      have hfil : (item :: rest).filter (fun e => !containsKey seen e.article.link) =
          rest.filter (fun e => !containsKey seen e.article.link) := by
        simp [List.filter_cons, hseen]
      rw [hstep, hfil]
      exact ih final ns hlen
    · have hfil : (item :: rest).filter (fun e => !containsKey seen e.article.link) =
          item :: rest.filter (fun e => !containsKey seen e.article.link) := by
        simp [List.filter_cons, hseen]
      by_cases hfull : MAX_FINAL_ARTICLES ≤ final.length + 1
      · have hstep : selectLoop now seen (item :: rest) final ns =
            (final ++ [item], upsert ns item.article.link now) := by
          simp only [selectLoop, if_neg hseen]
          rw [if_pos (by simpa using hfull)]
        have htake : MAX_FINAL_ARTICLES - final.length = 1 := by omega
        rw [hstep, hfil, htake]
        simp
      · have hstep : selectLoop now seen (item :: rest) final ns =
            selectLoop now seen rest (final ++ [item]) (upsert ns item.article.link now) := by
          simp only [selectLoop, if_neg hseen]
          rw [if_neg (by simpa using hfull)]
        rw [hstep, hfil]
        have hlen1 : (final ++ [item]).length < MAX_FINAL_ARTICLES := by
          simp only [List.length_append, List.length_singleton]
          omega
        rw [ih (final ++ [item]) _ hlen1]
        have htake : MAX_FINAL_ARTICLES - final.length =
            (MAX_FINAL_ARTICLES - (final.length + 1)) + 1 := by omega
        simp only [List.length_append, List.length_singleton, htake, List.take_succ_cons,
          List.append_assoc, List.cons_append, List.nil_append]

lemma selectLoop_store (now : ℚ) (seen : List (String × ℚ)) (rest : List Entry) :
    ∀ (final : List Entry) (ns : List (String × ℚ)),
      final.length < MAX_FINAL_ARTICLES →
      (selectLoop now seen rest final ns).2 =
        ((rest.filter (fun e => !containsKey seen e.article.link)).take
            (MAX_FINAL_ARTICLES - final.length)).foldl
          (fun m e => upsert m e.article.link now) ns := by
  induction rest with
  | nil => intro final ns _; simp [selectLoop]
  | cons item rest ih =>
    intro final ns hlen
    by_cases hseen : containsKey seen item.article.link = true
    · have hstep : selectLoop now seen (item :: rest) final ns =
          selectLoop now seen rest final ns := by
        simp only [selectLoop, if_pos hseen]
        rw [if_neg (by omega : ¬ MAX_FINAL_ARTICLES ≤ final.length)]
      have hfil : (item :: rest).filter (fun e => !containsKey seen e.article.link) =
          rest.filter (fun e => !containsKey seen e.article.link) := by
        simp [List.filter_cons, hseen]
      rw [hstep, hfil]
      exact ih final ns hlen
    · have hfil : (item :: rest).filter (fun e => !containsKey seen e.article.link) =
          item :: rest.filter (fun e => !containsKey seen e.article.link) := by
        simp [List.filter_cons, hseen]
      by_cases hfull : MAX_FINAL_ARTICLES ≤ final.length + 1
      · have hstep : selectLoop now seen (item :: rest) final ns =
            (final ++ [item], upsert ns item.article.link now) := by
          simp only [selectLoop, if_neg hseen]
          rw [if_pos (by simpa using hfull)]
        have htake : MAX_FINAL_ARTICLES - final.length = 1 := by omega
        rw [hstep, hfil, htake]
        simp
      · have hstep : selectLoop now seen (item :: rest) final ns =
            selectLoop now seen rest (final ++ [item]) (upsert ns item.article.link now) := by
          simp only [selectLoop, if_neg hseen]
          rw [if_neg (by simpa using hfull)]
        rw [hstep, hfil]
        have hlen1 : (final ++ [item]).length < MAX_FINAL_ARTICLES := by
          simp only [List.length_append, List.length_singleton]
          omega
        rw [ih (final ++ [item]) _ hlen1]
        have htake : MAX_FINAL_ARTICLES - final.length =
            (MAX_FINAL_ARTICLES - (final.length + 1)) + 1 := by omega
        simp only [List.length_append, List.length_singleton, htake, List.take_succ_cons,
          List.foldl_cons]

lemma selectLoop_preserves (now : ℚ) (seen : List (String × ℚ)) (rest : List Entry) :
    ∀ (final : List Entry) (ns : List (String × ℚ)) (k : String),
      containsKey ns k = true →
      containsKey (selectLoop now seen rest final ns).2 k = true := by
  induction rest with
  | nil => intro final ns k h; exact h
  | cons item rest ih =>
    intro final ns k h
    by_cases hseen : containsKey seen item.article.link = true
    · simp only [selectLoop, if_pos hseen]
      by_cases hbrk : MAX_FINAL_ARTICLES ≤ final.length
      · rw [if_pos hbrk]
        exact h
      · rw [if_neg hbrk]
        exact ih final ns k h
    · simp only [selectLoop, if_neg hseen]
      by_cases hbrk : MAX_FINAL_ARTICLES ≤ (final ++ [item]).length
      · rw [if_pos hbrk]
        exact containsKey_upsert_mono ns item.article.link now k h
      · rw [if_neg hbrk]
        exact ih _ _ k (containsKey_upsert_mono ns item.article.link now k h)

lemma selectLoop_marks (now : ℚ) (seen : List (String × ℚ)) (rest : List Entry) :
    ∀ (final : List Entry) (ns : List (String × ℚ)),
      final.length + rest.length ≤ MAX_FINAL_ARTICLES →
      (∀ k, containsKey seen k = true → containsKey ns k = true) →
      ∀ e ∈ rest, containsKey (selectLoop now seen rest final ns).2 e.article.link = true := by
  induction rest with
  | nil => intro final ns _ _ e he; simp at he
  | cons item rest ih =>
    intro final ns hlen hsub e he
    rcases List.mem_cons.mp he with he | he
    · subst he
      by_cases hseen : containsKey seen e.article.link = true
      · simp only [selectLoop, if_pos hseen]
        by_cases hbrk : MAX_FINAL_ARTICLES ≤ final.length
        · rw [if_pos hbrk]
          exact hsub _ hseen
        · rw [if_neg hbrk]
          exact selectLoop_preserves now seen rest final ns _ (hsub _ hseen)
      · simp only [selectLoop, if_neg hseen]
        by_cases hbrk : MAX_FINAL_ARTICLES ≤ (final ++ [e]).length
        · rw [if_pos hbrk]
          exact containsKey_upsert_self ns e.article.link now
        · rw [if_neg hbrk]
          exact selectLoop_preserves now seen rest _ _ _
            (containsKey_upsert_self ns e.article.link now)
    · have hrest : 1 ≤ rest.length := List.length_pos.mpr (List.ne_nil_of_mem he)
      by_cases hseen : containsKey seen item.article.link = true
      · simp only [selectLoop, if_pos hseen]
        have hbrk : ¬ MAX_FINAL_ARTICLES ≤ final.length := by
          simp only [List.length_cons, List.length_nil] at hlen
          omega
        rw [if_neg hbrk]
        refine ih final ns ?_ hsub e he
        simp only [List.length_cons] at hlen
        omega
      · simp only [selectLoop, if_neg hseen]
        have hbrk : ¬ MAX_FINAL_ARTICLES ≤ (final ++ [item]).length := by
          simp only [List.length_append, List.length_singleton, List.length_cons, List.length_nil] at hlen ⊢
          omega
        rw [if_neg hbrk]
        refine ih (final ++ [item]) _ ?_ ?_ e he
        · simp only [List.length_append, List.length_singleton, List.length_cons, List.length_nil] at hlen ⊢
          omega
        · intro k hk
          exact containsKey_upsert_mono ns item.article.link now k (hsub k hk)

lemma selectLoop_values (now : ℚ) (seen : List (String × ℚ)) (P : ℚ → Prop) (hP : P now)
    (rest : List Entry) :
    ∀ (final : List Entry) (ns : List (String × ℚ)),
      (∀ p ∈ ns, P p.2) →
      ∀ p ∈ (selectLoop now seen rest final ns).2, P p.2 := by
  induction rest with
  | nil => intro final ns hns p hp; exact hns p hp
  | cons item rest ih =>
    intro final ns hns p hp
    by_cases hseen : containsKey seen item.article.link = true
    · simp only [selectLoop, if_pos hseen] at hp
      by_cases hbrk : MAX_FINAL_ARTICLES ≤ final.length
      · rw [if_pos hbrk] at hp
        exact hns p hp
      · rw [if_neg hbrk] at hp
        exact ih final ns hns p hp
    · simp only [selectLoop, if_neg hseen] at hp
      by_cases hbrk : MAX_FINAL_ARTICLES ≤ (final ++ [item]).length
      · rw [if_pos hbrk] at hp
        exact upsert_values ns item.article.link now P hns hP p hp
      · rw [if_neg hbrk] at hp
        exact ih _ _ (upsert_values ns item.article.link now P hns hP) p hp

lemma mem_buildImportant_feed_count (now : ℚ) (clusters : List (List Article))
    (e : Entry) (he : e ∈ buildImportant now clusters) :
    MIN_FEED_COUNT ≤ e.importance.feed_count := by
  unfold buildImportant at he
  rw [List.mem_filterMap] at he
  obtain ⟨cluster, _, hcl⟩ := he
  by_cases hguard : MIN_FEED_COUNT ≤ (cluster.map (fun a => a.source)).dedup.length
  · rw [if_pos hguard] at hcl
    have hne : cluster ≠ [] := by
      intro h
      rw [h] at hguard
      simp [MIN_FEED_COUNT] at hguard
    obtain ⟨newest, hmax, heq⟩ := calculate_importance_spec now cluster hne
    cases hsel : select_best_article cluster with
    | none =>
      rw [heq, hsel] at hcl
      simp at hcl
    | some best =>
      rw [heq, hsel] at hcl
      have he' := Option.some.inj hcl
      rw [← he']
      exact hguard
  · rw [if_neg hguard] at hcl
    simp at hcl

end FinalFeed

/-- Claim C2: the Curator's selection step stable-sorts the surviving
entries by score descending (`sortEntries` is a permutation, sorted under
`scoreGe`, and stable: any correctly ordered pair of entries of the input
stays in that order), then walks the sorted list skipping entries whose
representative's link is already in the loaded Seen-Store and accepting the
rest up to `MAX_FINAL_ARTICLES` (the output is exactly the first
`MAX_FINAL_ARTICLES` unseen entries, so its size never exceeds the
capacity), and marks each accepted link as seen at the current time. -/
theorem claim_C2_selection (now : ℚ) (seen : List (String × ℚ))
    (entries : List FinalFeed.Entry) :
    ((FinalFeed.sortEntries entries).Perm entries) ∧
    List.Sorted FinalFeed.scoreGe (FinalFeed.sortEntries entries) ∧
    (∀ x y : FinalFeed.Entry, FinalFeed.scoreGe x y → [x, y].Sublist entries →
      [x, y].Sublist (FinalFeed.sortEntries entries)) ∧
    (FinalFeed.selectFinal now seen (FinalFeed.sortEntries entries)).1 =
      ((FinalFeed.sortEntries entries).filter
        (fun e => !FinalFeed.containsKey seen e.article.link)).take
        FinalFeed.MAX_FINAL_ARTICLES ∧
    (FinalFeed.selectFinal now seen (FinalFeed.sortEntries entries)).1.length ≤
      FinalFeed.MAX_FINAL_ARTICLES ∧
    (FinalFeed.selectFinal now seen (FinalFeed.sortEntries entries)).2 =
      ((FinalFeed.selectFinal now seen (FinalFeed.sortEntries entries)).1).foldl
        (fun m e => FinalFeed.upsert m e.article.link now) seen := by
  have hmaxpos : 0 < FinalFeed.MAX_FINAL_ARTICLES := by
    simp [FinalFeed.MAX_FINAL_ARTICLES]
  have htake := FinalFeed.selectLoop_take now seen (FinalFeed.sortEntries entries) [] seen
    (by simpa using hmaxpos)
  have hstore := FinalFeed.selectLoop_store now seen (FinalFeed.sortEntries entries) [] seen
    (by simpa using hmaxpos)
  simp only [List.nil_append, List.length_nil, Nat.sub_zero] at htake hstore
  refine ⟨List.perm_insertionSort _ _, List.sorted_insertionSort _ _, ?_, htake, ?_, ?_⟩
  · intro x y hxy hsub
    exact List.pair_sublist_insertionSort hxy hsub
  · simp only [FinalFeed.selectFinal]
    rw [htake]
    exact (List.length_take_le _ _)
  · simp only [FinalFeed.selectFinal]
    rw [hstore, htake]

/-- Claim C7: a cluster with exactly `MIN_FEED_COUNT − 1` distinct sources
is discarded by the corroboration filter (it contributes no entry, so it can
never be selected), a cluster with exactly `MIN_FEED_COUNT` distinct sources
passes the filter and contributes an entry eligible for selection, and every
entry the selection step emits has at least `MIN_FEED_COUNT` distinct
sources. -/
theorem claim_C7_corroboration_threshold (now : ℚ) (c : List Article)
    (cs : List (List Article)) (clusters : List (List Article))
    (seen : List (String × ℚ)) :
    ((c.map (fun a => a.source)).dedup.length = FinalFeed.MIN_FEED_COUNT - 1 →
      FinalFeed.buildImportant now (c :: cs) = FinalFeed.buildImportant now cs) ∧
    ((c.map (fun a => a.source)).dedup.length = FinalFeed.MIN_FEED_COUNT →
      ∃ imp best, FinalFeed.calculate_importance now c = some imp ∧
        FinalFeed.select_best_article c = some best ∧
        FinalFeed.buildImportant now (c :: cs) =
          ⟨best, c.length, imp⟩ :: FinalFeed.buildImportant now cs) ∧
    (∀ e ∈ (FinalFeed.selectFinal now seen
        (FinalFeed.sortEntries (FinalFeed.buildImportant now clusters))).1,
      FinalFeed.MIN_FEED_COUNT ≤ e.importance.feed_count) := by
  refine ⟨?_, ?_, ?_⟩
  · intro h2
    have hguard : ¬ FinalFeed.MIN_FEED_COUNT ≤ (c.map (fun a => a.source)).dedup.length := by
      rw [h2]
      simp [FinalFeed.MIN_FEED_COUNT]
    unfold FinalFeed.buildImportant
    rw [List.filterMap_cons]
    rw [if_neg hguard]
  · intro h3
    have hne : c ≠ [] := by
      intro h
      rw [h] at h3
      simp [FinalFeed.MIN_FEED_COUNT] at h3
    obtain ⟨newest, hmax, heq⟩ := FinalFeed.calculate_importance_spec now c hne
    have hsel := FinalFeed.select_best_article_isSome c hne
    obtain ⟨best, hbest⟩ := Option.isSome_iff_exists.mp hsel
    refine ⟨_, best, heq, hbest, ?_⟩
    have hguard : FinalFeed.MIN_FEED_COUNT ≤ (c.map (fun a => a.source)).dedup.length := by
      rw [h3]
    unfold FinalFeed.buildImportant
    rw [List.filterMap_cons, if_pos hguard, heq, hbest]
  · intro e he
    have hmaxpos : 0 < FinalFeed.MAX_FINAL_ARTICLES := by
      simp [FinalFeed.MAX_FINAL_ARTICLES]
    have htake := FinalFeed.selectLoop_take now seen
      (FinalFeed.sortEntries (FinalFeed.buildImportant now clusters)) [] seen
      (by simpa using hmaxpos)
    simp only [List.nil_append, List.length_nil, Nat.sub_zero] at htake
    simp only [FinalFeed.selectFinal] at he
    rw [htake] at he
    have he1 : e ∈ (FinalFeed.sortEntries (FinalFeed.buildImportant now clusters)).filter
        (fun e => !FinalFeed.containsKey seen e.article.link) := List.mem_of_mem_take he
    have he2 : e ∈ FinalFeed.sortEntries (FinalFeed.buildImportant now clusters) :=
      List.mem_of_mem_filter he1
    have he3 : e ∈ FinalFeed.buildImportant now clusters :=
      (List.perm_insertionSort _ _).mem_iff.mp he2
    exact FinalFeed.mem_buildImportant_feed_count now clusters e he3

/-- Claim C4, counterexample: on malformed persisted content
`load_last_seen` does not degrade to an empty mapping — the `json.load`
exception propagates, because no handler in `load_last_seen` catches it. -/
theorem claim_C4_counterexample :
    FinalFeed.load_last_seen 0 .malformed = .error () ∧
    FinalFeed.load_last_seen 0 .malformed ≠ .ok [] := by
  constructor
  · rfl
  · intro h
    simp [FinalFeed.load_last_seen] at h

/-- Claim C4 (amended): `load_last_seen` returns the empty mapping on a
missing file without raising, and on parseable content returns the mapping
pruned of every entry at or beyond the 7-day retention window (entries
within the window survive unchanged, survivors are all within the window);
but on malformed content the `json.load` exception propagates instead of
degrading to an empty mapping. -/
theorem claim_C4_seen_store_load (now : ℚ) (data : List (String × ℚ)) :
    FinalFeed.load_last_seen now .missing = .ok [] ∧
    FinalFeed.load_last_seen now (.parsed data) =
      .ok (data.filter (fun e => decide (now - FinalFeed.RETENTION_WINDOW < e.2))) ∧
    (∀ e ∈ data, now - FinalFeed.RETENTION_WINDOW < e.2 →
      e ∈ data.filter (fun e => decide (now - FinalFeed.RETENTION_WINDOW < e.2))) ∧
    (∀ e ∈ data.filter (fun e => decide (now - FinalFeed.RETENTION_WINDOW < e.2)),
      now - FinalFeed.RETENTION_WINDOW < e.2) ∧
    FinalFeed.load_last_seen now .malformed = .error () := by
  refine ⟨rfl, rfl, ?_, ?_, rfl⟩
  · intro e he hwin
    rw [List.mem_filter]
    exact ⟨he, by simpa using hwin⟩
  · intro e he
    have := (List.mem_filter.mp he).2
    simpa using this

/-! ## Idempotence of the Curator under no new data -/

namespace FinalFeed

lemma load_values (now : ℚ) (file : FileState) (L : List (String × ℚ))
    (h : load_last_seen now file = .ok L) :
    ∀ p ∈ L, now - RETENTION_WINDOW < p.2 := by
  cases file with
  | missing =>
    obtain rfl : ([] : List (String × ℚ)) = L := Except.ok.inj h
    intro p hp
    simp at hp
  | malformed => exact absurd h (by simp [load_last_seen])
  | parsed d =>
    obtain rfl : _ = L := Except.ok.inj h
    intro p hp
    have := (List.mem_filter.mp hp).2
    simpa using this

lemma retention_pos : (0 : ℚ) < RETENTION_WINDOW := by
  norm_num [RETENTION_WINDOW]

end FinalFeed

/-- Claim C6 (amended): running the Curator twice in immediate succession
(same current time) on an unchanged candidate batch, with the Seen-Store
persisted by the first run and not reset, yields zero newly selected
articles on the second run — provided at most `MAX_FINAL_ARTICLES` clusters
survive the corroboration filter, so that the first run's capacity cutoff
leaves no qualifying representative unmarked.  (Without that proviso the
claim is false: see the capacity counterexample.) -/
theorem claim_C6_idempotence (now : ℚ) (oracle : Option (Nat → Nat → ℚ))
    (articles : List Article) (file : FinalFeed.FileState)
    (sel1 sel2 : List FinalFeed.Entry) (store1 store2 : FinalFeed.FileState)
    (h1 : FinalFeed.curate_final_feed now oracle articles file = .ok (sel1, store1))
    (h2 : FinalFeed.curate_final_feed now oracle articles store1 = .ok (sel2, store2))
    (hcap : (FinalFeed.buildImportant now (FinalFeed.cluster_articles oracle articles)).length ≤
      FinalFeed.MAX_FINAL_ARTICLES) :
    sel2 = [] := by
  by_cases hemp : articles = []
  · rw [hemp] at h2
    rw [show FinalFeed.curate_final_feed now oracle [] store1 = .ok ([], store1) from rfl] at h2
    exact (Prod.mk.injEq .. ▸ Except.ok.inj h2).1.symm
  · cases hload : FinalFeed.load_last_seen now file with
    | error e =>
      simp only [FinalFeed.curate_final_feed, if_neg hemp, hload] at h1
      exact absurd h1 (by simp)
    | ok L =>
      simp only [FinalFeed.curate_final_feed, if_neg hemp, hload, Except.ok.injEq,
        Prod.mk.injEq] at h1
      obtain ⟨hsel1, hstore1⟩ := h1
      -- the sorted entry list is the same in both runs (same time, same batch)
      set sorted := FinalFeed.sortEntries
        (FinalFeed.buildImportant now (FinalFeed.cluster_articles oracle articles)) with hsorted
      -- the store persisted by run 1
      set ns1 := (FinalFeed.selectFinal now L sorted).2 with hns1
      -- all its values are within the retention window at the same `now`
      have hgood : ∀ p ∈ ns1, now - FinalFeed.RETENTION_WINDOW < p.2 := by
        intro p hp
        exact FinalFeed.selectLoop_values now L
          (fun v => now - FinalFeed.RETENTION_WINDOW < v)
          (by linarith [FinalFeed.retention_pos]) sorted [] L
          (FinalFeed.load_values now file L hload) p hp
      -- run 1 walks the whole list, so every entry's link is marked
      have hmarks : ∀ e ∈ sorted, FinalFeed.containsKey ns1 e.article.link = true := by
        apply FinalFeed.selectLoop_marks now L sorted [] L
        · simp only [List.length_nil, Nat.zero_add]
          calc sorted.length
              = (FinalFeed.buildImportant now (FinalFeed.cluster_articles oracle articles)).length :=
                List.length_insertionSort _ _
            _ ≤ FinalFeed.MAX_FINAL_ARTICLES := hcap
        · exact fun k hk => hk
      -- run 2 loads the persisted store unchanged (nothing is pruned)
      have hload2 : FinalFeed.load_last_seen now store1 = .ok ns1 := by
        rw [← hstore1]
        simp only [FinalFeed.load_last_seen]
        congr 1
        apply List.filter_eq_self.mpr
        intro p hp
        exact decide_eq_true (hgood p hp)
      simp only [FinalFeed.curate_final_feed, if_neg hemp, hload2, Except.ok.injEq,
        Prod.mk.injEq] at h2
      obtain ⟨hsel2, _⟩ := h2
      -- the second walk skips everything
      have hmaxpos : 0 < FinalFeed.MAX_FINAL_ARTICLES := by
        simp [FinalFeed.MAX_FINAL_ARTICLES]
      have htake := FinalFeed.selectLoop_take now ns1 sorted [] ns1 (by simpa using hmaxpos)
      simp only [List.nil_append, List.length_nil, Nat.sub_zero] at htake
      have hfil : sorted.filter (fun e => !FinalFeed.containsKey ns1 e.article.link) = [] := by
        apply List.filter_eq_nil.mpr
        intro e he
        simp [hmarks e he]
      rw [← hsel2]
      simp only [FinalFeed.selectFinal]
      rw [htake, hfil]
      simp

/-! ## The capacity counterexample: 51 corroborated stories, capacity 50 -/

namespace FinalFeed

lemma scan_none (simOk : Nat → Nat → Bool) (i : Nat) (js : List Nat) :
    ∀ used, (∀ j ∈ js, simOk i j = false) →
      scanFrom simOk i js used = ([], used) := by
  induction js with
  | nil => intro used _; rfl
  | cons j js ih =>
    intro used hall
    by_cases hj : j ∈ used
    · simp only [scanFrom, if_pos hj]
      exact ih used (fun x hx => hall x (List.mem_cons_of_mem _ hx))
    · have hs : simOk i j = false := hall j (List.mem_cons_self _ _)
      simp only [scanFrom, if_neg hj, hs, Bool.false_eq_true, if_false]
      exact ih used (fun x hx => hall x (List.mem_cons_of_mem _ hx))

lemma clusterStep_skip (simOk : Nat → Nat → Bool) (n : Nat) (l1 : List Nat) :
    ∀ (l2 used : List Nat), (∀ x ∈ l1, x ∈ used) →
      clusterStep simOk n (l1 ++ l2) used = clusterStep simOk n l2 used := by
  induction l1 with
  | nil => intro l2 used _; rfl
  | cons x l1 ih =>
    intro l2 used hall
    have hx : x ∈ used := hall x (List.mem_cons_self _ _)
    simp only [List.cons_append, clusterStep, if_pos hx]
    exact ih l2 used (fun y hy => hall y (List.mem_cons_of_mem _ hy))

end FinalFeed

lemma cexSimOk_eq : FinalFeed.simOkOf cexSim = fun i j => decide (i / 3 = j / 3) := by
  funext i j
  unfold FinalFeed.simOkOf cexSim
  by_cases h : i / 3 = j / 3
  · rw [if_pos h]
    have h1 : FinalFeed.SIMILARITY_THRESHOLD ≤ (1 : ℚ) := by
      norm_num [FinalFeed.SIMILARITY_THRESHOLD]
    simp [h, h1]
  · rw [if_neg h]
    have h1 : ¬ FinalFeed.SIMILARITY_THRESHOLD ≤ (0 : ℚ) := by
      norm_num [FinalFeed.SIMILARITY_THRESHOLD]
    simp [h, h1]

lemma scanFrom_cons_add (simOk : Nat → Nat → Bool) (i j : Nat) (js used : List Nat)
    (hj : j ∉ used) (hs : simOk i j = true) :
    FinalFeed.scanFrom simOk i (j :: js) used =
      (j :: (FinalFeed.scanFrom simOk i js (j :: used)).1,
        (FinalFeed.scanFrom simOk i js (j :: used)).2) := by
  simp [FinalFeed.scanFrom, hj, hs]

lemma cex_scan (k r : Nat) (used : List Nat) (hused : ∀ x, x ∈ used ↔ x < 3 * k + 1) :
    FinalFeed.scanFrom (fun i j => decide (i / 3 = j / 3)) (3 * k)
        (List.range' (3 * k + 1) (3 * r + 2)) used =
      ([3 * k + 1, 3 * k + 2], (3 * k + 2) :: (3 * k + 1) :: used) := by
  have hdecomp : List.range' (3 * k + 1) (3 * r + 2) =
      (3 * k + 1) :: (3 * k + 2) :: List.range' (3 * k + 3) (3 * r) := by
    rw [show 3 * r + 2 = (3 * r + 1) + 1 from by omega, List.range'_succ, List.range'_succ]
  rw [hdecomp]
  have hmem1 : 3 * k + 1 ∉ used := fun h => by have := (hused _).mp h; omega
  have hd1 : (fun i j => decide (i / 3 = j / 3)) (3 * k) (3 * k + 1) = true :=
    decide_eq_true (by omega)
  rw [scanFrom_cons_add (fun i j => decide (i / 3 = j / 3)) (3 * k) (3 * k + 1)
    ((3 * k + 2) :: List.range' (3 * k + 3) (3 * r)) used hmem1 hd1]
  have hmem2 : 3 * k + 2 ∉ ((3 * k + 1) :: used) := by
    intro h
    rcases List.mem_cons.mp h with h | h
    · omega
    · have := (hused _).mp h; omega
  have hd2 : (fun i j => decide (i / 3 = j / 3)) (3 * k) (3 * k + 2) = true :=
    decide_eq_true (by omega)
  rw [scanFrom_cons_add (fun i j => decide (i / 3 = j / 3)) (3 * k) (3 * k + 2)
    (List.range' (3 * k + 3) (3 * r)) ((3 * k + 1) :: used) hmem2 hd2]
  have hnone := FinalFeed.scan_none (fun i j => decide (i / 3 = j / 3)) (3 * k)
    (List.range' (3 * k + 3) (3 * r))
    ((3 * k + 2) :: (3 * k + 1) :: used)
    (by
      intro j hj
      have hjge := (List.mem_range'_1.mp hj).1
      apply decide_eq_false
      omega)
  rw [hnone]

lemma cex_clusterStep (m : Nat) :
    ∀ (r k : Nat) (used : List Nat), m - k = r → k ≤ m →
      (∀ x, x ∈ used ↔ x < 3 * k) →
      FinalFeed.clusterStep (fun i j => decide (i / 3 = j / 3)) (3 * m)
          (List.range' (3 * k) (3 * m - 3 * k)) used =
        (List.range' k r).map (fun t => [3 * t, 3 * t + 1, 3 * t + 2]) := by
  intro r
  induction r with
  | zero =>
    intro k used hr hk hused
    have hkm : k = m := by omega
    subst hkm
    rw [Nat.sub_self]
    simp [FinalFeed.clusterStep]
  | succ r ih =>
    intro k used hr hk hused
    have hlen : 3 * m - 3 * k = (3 * r + 2) + 1 := by omega
    rw [hlen, List.range'_succ]
    have hmem : 3 * k ∉ used := fun h => by have := (hused _).mp h; omega
    have hinner : 3 * m - (3 * k + 1) = 3 * r + 2 := by omega
    have hused' : ∀ x, x ∈ (3 * k :: used) ↔ x < 3 * k + 1 := by
      intro x
      rw [List.mem_cons, hused]
      omega
    have hscan := cex_scan k r (3 * k :: used) hused'
    have hstep : FinalFeed.clusterStep (fun i j => decide (i / 3 = j / 3)) (3 * m)
        (3 * k :: List.range' (3 * k + 1) (3 * r + 2)) used =
        (3 * k :: [3 * k + 1, 3 * k + 2]) ::
          FinalFeed.clusterStep (fun i j => decide (i / 3 = j / 3)) (3 * m)
            (List.range' (3 * k + 1) (3 * r + 2))
            ((3 * k + 2) :: (3 * k + 1) :: 3 * k :: used) := by
      simp only [FinalFeed.clusterStep, if_neg hmem, hinner, hscan]
    rw [hstep]
    have hdecomp : List.range' (3 * k + 1) (3 * r + 2) =
        [3 * k + 1, 3 * k + 2] ++ List.range' (3 * k + 3) (3 * r) := by
      rw [show (3 * r + 2) = (3 * r + 1) + 1 from by omega, List.range'_succ, List.range'_succ]
      rfl
    have hused2 : ∀ x, x ∈ ((3 * k + 2) :: (3 * k + 1) :: 3 * k :: used) ↔ x < 3 * (k + 1) := by
      intro x
      simp only [List.mem_cons, hused]
      omega
    have hskip := FinalFeed.clusterStep_skip (fun i j => decide (i / 3 = j / 3)) (3 * m)
      [3 * k + 1, 3 * k + 2] (List.range' (3 * k + 3) (3 * r))
      ((3 * k + 2) :: (3 * k + 1) :: 3 * k :: used)
      (by
        intro x hx
        rcases List.mem_cons.mp hx with h | hx
        · subst h; simp
        · rcases List.mem_cons.mp hx with h | hx
          · subst h; simp
          · simp at hx)
    rw [hdecomp, hskip]
    have hr3 : List.range' (3 * k + 3) (3 * r) = List.range' (3 * (k + 1)) (3 * m - 3 * (k + 1)) := by
      congr 1 <;> omega
    rw [hr3, ih (k + 1) _ (by omega) (by omega) hused2]
    rw [List.range'_succ, List.map_cons]

lemma cex_clusterIndices :
    FinalFeed.clusterIndices (FinalFeed.simOkOf cexSim) 153 =
      (List.range 51).map (fun t => [3 * t, 3 * t + 1, 3 * t + 2]) := by
  rw [cexSimOk_eq]
  unfold FinalFeed.clusterIndices
  have h := cex_clusterStep 51 51 0 []
    (by omega) (by omega)
    (by intro x; simp)
  norm_num at h
  rw [List.range_eq_range']
  rw [show List.range 51 = List.range' 0 51 from List.range_eq_range' 51]
  exact h

lemma cex_getD (j : Nat) (hj : j < 153) : cexArticles.getD j default = cexArticle j := by
  unfold cexArticles
  rw [List.getD_eq_getElem?_getD, List.getElem?_map, List.getElem?_range hj]
  rfl

lemma cexArticles_ne_nil : cexArticles ≠ [] := by
  unfold cexArticles
  intro h
  have := congrArg List.length h
  simp at this

lemma cex_clusters :
    FinalFeed.cluster_articles (some cexSim) cexArticles = (List.range 51).map cexBlock := by
  have hlen : cexArticles.length = 153 := by simp [cexArticles]
  unfold FinalFeed.cluster_articles
  rw [if_neg cexArticles_ne_nil, hlen]
  show FinalFeed.toArticleClusters cexArticles
      (FinalFeed.clusterIndices (FinalFeed.simOkOf cexSim) 153) = (List.range 51).map cexBlock
  rw [cex_clusterIndices]
  unfold FinalFeed.toArticleClusters
  rw [List.map_map]
  apply List.map_congr_left
  intro t ht
  have ht51 : t < 51 := List.mem_range.mp ht
  show [3 * t, 3 * t + 1, 3 * t + 2].map (fun k => cexArticles.getD k default) = cexBlock t
  rw [List.map_cons, List.map_cons, List.map_cons, List.map_nil]
  rw [cex_getD (3 * t) (by omega), cex_getD (3 * t + 1) (by omega),
    cex_getD (3 * t + 2) (by omega)]
  rfl

lemma cexSource0 (t : Nat) : cexSource (3 * t) = "s0" := by
  unfold cexSource
  rw [show (3 * t) % 3 = 0 from by omega]
  rfl

lemma cexSource1 (t : Nat) : cexSource (3 * t + 1) = "s1" := by
  unfold cexSource
  rw [show (3 * t + 1) % 3 = 1 from by omega]
  rfl

lemma cexSource2 (t : Nat) : cexSource (3 * t + 2) = "s2" := by
  unfold cexSource
  rw [show (3 * t + 2) % 3 = 2 from by omega]
  rfl

lemma cex_block_eq (t : Nat) : cexBlock t =
    [{ title := "t", link := cexLink (3 * t), pubDate := 0, source := "s0" },
     { title := "t", link := cexLink (3 * t + 1), pubDate := 0, source := "s1" },
     { title := "t", link := cexLink (3 * t + 2), pubDate := 0, source := "s2" }] := by
  unfold cexBlock cexArticle
  rw [cexSource0, cexSource1, cexSource2]

lemma cex_imp (t : Nat) : FinalFeed.calculate_importance 0 (cexBlock t) = some cexImp := by
  have hne : cexBlock t ≠ [] := by rw [cex_block_eq]; simp
  obtain ⟨newest, hmax, heq⟩ := FinalFeed.calculate_importance_spec 0 (cexBlock t) hne
  have hp : (cexBlock t).map (fun a => a.pubDate) = [0, 0, 0] := by
    rw [cex_block_eq]
    rfl
  rw [hp] at hmax
  have hmax0 : (([0, 0, 0] : List ℚ)).max? = some 0 := by with_unfolding_all decide
  have hnewest : newest = 0 := (Option.some.inj (hmax0.symm.trans hmax)).symm
  subst hnewest
  rw [heq]
  have hsrc : (cexBlock t).map (fun a => a.source) = ["s0", "s1", "s2"] := by
    rw [cex_block_eq]
    rfl
  have hrep : (cexBlock t).map (fun a => (FinalFeed.get_reputation_score a.source : ℚ)) =
      [0, 0, 0] := by
    rw [cex_block_eq]
    with_unfolding_all rfl
  have hbrk : (cexBlock t).any (fun a => FinalFeed.has_breaking_keywords a.title) = false := by
    rw [cex_block_eq]
    with_unfolding_all rfl
  have hlen : (cexBlock t).length = 3 := by rw [cex_block_eq]; rfl
  rw [hsrc, hrep, hbrk, hlen]
  with_unfolding_all decide

lemma cex_sel (t : Nat) :
    FinalFeed.select_best_article (cexBlock t) = some (cexArticle (3 * t)) := by
  have harts : cexArticle (3 * t) =
      { title := "t", link := cexLink (3 * t), pubDate := 0, source := "s0" } := by
    unfold cexArticle
    rw [cexSource0]
  rw [cex_block_eq, harts]
  with_unfolding_all rfl

lemma cex_build_single (t : Nat) :
    FinalFeed.buildImportant 0 [cexBlock t] = [cexEntry t] := by
  have hsrc : (cexBlock t).map (fun a => a.source) = ["s0", "s1", "s2"] := by
    rw [cex_block_eq]
    rfl
  have hguard : FinalFeed.MIN_FEED_COUNT ≤ ((cexBlock t).map (fun a => a.source)).dedup.length := by
    rw [hsrc]
    decide
  have hpt : (if FinalFeed.MIN_FEED_COUNT ≤ ((cexBlock t).map (fun a => a.source)).dedup.length then
      match FinalFeed.calculate_importance 0 (cexBlock t),
          FinalFeed.select_best_article (cexBlock t) with
      | some importance, some best =>
        some (⟨best, (cexBlock t).length, importance⟩ : FinalFeed.Entry)
      | _, _ => none
    else none) = some (cexEntry t) := by
    rw [if_pos hguard, cex_imp t, cex_sel t]
    rfl
  simp only [FinalFeed.buildImportant, List.filterMap_cons, List.filterMap_nil]
  rw [hpt]

lemma cex_build_aux (ts : List Nat) :
    FinalFeed.buildImportant 0 (ts.map cexBlock) = ts.map cexEntry := by
  induction ts with
  | nil => rfl
  | cons t ts ih =>
    rw [List.map_cons, List.map_cons]
    have h1 : FinalFeed.buildImportant 0 (cexBlock t :: ts.map cexBlock) =
        FinalFeed.buildImportant 0 [cexBlock t] ++ FinalFeed.buildImportant 0 (ts.map cexBlock) := by
      unfold FinalFeed.buildImportant
      rw [show cexBlock t :: ts.map cexBlock = [cexBlock t] ++ ts.map cexBlock from rfl,
        List.filterMap_append]
    rw [h1, ih, cex_build_single t]
    rfl

lemma pairwise_of_total {α : Type} {R : α → α → Prop} (h : ∀ a b, R a b) :
    ∀ l : List α, l.Pairwise R := by
  intro l
  induction l with
  | nil => exact List.Pairwise.nil
  | cons a l ih => exact List.Pairwise.cons (fun b _ => h a b) ih

lemma cex_sortEntries :
    FinalFeed.sortEntries ((List.range 51).map cexEntry) = (List.range 51).map cexEntry := by
  apply List.Sorted.insertionSort_eq
  exact List.pairwise_map.mpr (pairwise_of_total (fun a b => le_refl _) _)

lemma cexLink_inj : Function.Injective cexLink := by
  intro a b h
  have hl := congrArg (fun s : String => s.data.length) h
  simpa [cexLink] using hl

lemma curate_eq (now : ℚ) (oracle : Option (Nat → Nat → ℚ)) (articles : List Article)
    (file : FinalFeed.FileState) (L : List (String × ℚ)) (hne : articles ≠ [])
    (hload : FinalFeed.load_last_seen now file = .ok L) :
    FinalFeed.curate_final_feed now oracle articles file =
      .ok ((FinalFeed.selectFinal now L (FinalFeed.sortEntries (FinalFeed.buildImportant now
          (FinalFeed.cluster_articles oracle articles)))).1,
        .parsed (FinalFeed.selectFinal now L (FinalFeed.sortEntries (FinalFeed.buildImportant now
          (FinalFeed.cluster_articles oracle articles)))).2) := by
  simp only [FinalFeed.curate_final_feed, if_neg hne, hload]

lemma foldl_upsert_fresh (es : List FinalFeed.Entry) :
    ∀ (m0 : List (String × ℚ)) (v : ℚ),
      (∀ i ∈ es, FinalFeed.containsKey m0 i.article.link = false) →
      (es.map (fun i => i.article.link)).Nodup →
      es.foldl (fun m i => FinalFeed.upsert m i.article.link v) m0 =
        m0 ++ es.map (fun i => (i.article.link, v)) := by
  induction es with
  | nil => intro m0 v _ _; simp
  | cons e es ih =>
    intro m0 v hfresh hnd
    rw [List.foldl_cons]
    have h0 : FinalFeed.containsKey m0 e.article.link = false :=
      hfresh e (List.mem_cons_self _ _)
    have hup : FinalFeed.upsert m0 e.article.link v = m0 ++ [(e.article.link, v)] := by
      unfold FinalFeed.upsert
      rw [if_neg (by simp [h0])]
    have hnd2 : (∀ x ∈ es, ¬x.article.link = e.article.link) ∧
        (List.map (fun i => i.article.link) es).Nodup := by simpa using hnd
    rw [hup, ih (m0 ++ [(e.article.link, v)]) v ?_ hnd2.2]
    · rw [List.append_assoc]
      rfl
    · intro i hi
      unfold FinalFeed.containsKey
      rw [List.any_append]
      have h1 : FinalFeed.containsKey m0 i.article.link = false := hfresh i (List.mem_cons_of_mem _ hi)
      unfold FinalFeed.containsKey at h1
      rw [h1]
      have hne : i.article.link ≠ e.article.link := hnd2.1 i hi
      simp [beq_eq_false_iff_ne, Ne.symm hne]

lemma cexEntry_link_inj : Function.Injective (fun t => (cexEntry t).article.link) := by
  intro a b h
  have h' : cexLink (3 * a) = cexLink (3 * b) := h
  have := cexLink_inj h'
  omega

lemma cex_run1 :
    FinalFeed.curate_final_feed 0 (some cexSim) cexArticles .missing =
      .ok ((List.range 50).map cexEntry, .parsed cexStore1) := by
  rw [curate_eq 0 (some cexSim) cexArticles .missing [] cexArticles_ne_nil rfl]
  rw [cex_clusters, cex_build_aux (List.range 51), cex_sortEntries]
  have hmaxpos : (0 : Nat) < FinalFeed.MAX_FINAL_ARTICLES := by
    simp [FinalFeed.MAX_FINAL_ARTICLES]
  have hfil : ((List.range 51).map cexEntry).filter
      (fun e => !FinalFeed.containsKey [] e.article.link) = (List.range 51).map cexEntry := by
    apply List.filter_eq_self.mpr
    intro e _
    rfl
  have htake := FinalFeed.selectLoop_take 0 [] ((List.range 51).map cexEntry) [] []
    (by simpa using hmaxpos)
  have hstore := FinalFeed.selectLoop_store 0 [] ((List.range 51).map cexEntry) [] []
    (by simpa using hmaxpos)
  simp only [List.nil_append, List.length_nil, Nat.sub_zero] at htake hstore
  rw [hfil] at htake hstore
  have htk : ((List.range 51).map cexEntry).take FinalFeed.MAX_FINAL_ARTICLES =
      (List.range 50).map cexEntry := by
    rw [← List.map_take]
    congr 1
  rw [htk] at htake hstore
  have hnodup : (((List.range 50).map cexEntry).map (fun i => i.article.link)).Nodup := by
    rw [List.map_map]
    exact List.Nodup.map cexEntry_link_inj (List.nodup_range 50)
  have hfold := foldl_upsert_fresh ((List.range 50).map cexEntry) [] 0
    (fun i _ => rfl) hnodup
  have hmapstore : ((List.range 50).map cexEntry).map
      (fun i => (i.article.link, (0 : ℚ))) = cexStore1 := by
    rw [List.map_map]
    rfl
  have hsel1 : (FinalFeed.selectFinal 0 [] ((List.range 51).map cexEntry)).1 =
      (List.range 50).map cexEntry := htake
  have hsel2 : (FinalFeed.selectFinal 0 [] ((List.range 51).map cexEntry)).2 = cexStore1 := by
    refine hstore.trans (hfold.trans ?_)
    rw [List.nil_append, hmapstore]
  rw [hsel1, hsel2]

lemma cex_containsKey_lt (t : Nat) (ht : t < 50) :
    FinalFeed.containsKey cexStore1 (cexLink (3 * t)) = true := by
  unfold FinalFeed.containsKey cexStore1
  rw [List.any_eq_true]
  exact ⟨(cexLink (3 * t), 0), List.mem_map.mpr ⟨t, List.mem_range.mpr ht, rfl⟩, by simp⟩

lemma cex_containsKey_50 :
    FinalFeed.containsKey cexStore1 (cexLink (3 * 50)) = false := by
  unfold FinalFeed.containsKey cexStore1
  rw [List.any_eq_false]
  intro p hp
  obtain ⟨i, hi, rfl⟩ := List.mem_map.mp hp
  have hi50 := List.mem_range.mp hi
  simp only [beq_iff_eq]
  intro hh
  have := cexLink_inj hh
  omega

lemma cex_load2 : FinalFeed.load_last_seen 0 (.parsed cexStore1) = .ok cexStore1 := by
  show Except.ok (cexStore1.filter
      (fun e => decide ((0 : ℚ) - FinalFeed.RETENTION_WINDOW < e.2))) = Except.ok cexStore1
  have hf : cexStore1.filter
      (fun e => decide ((0 : ℚ) - FinalFeed.RETENTION_WINDOW < e.2)) = cexStore1 := by
    apply List.filter_eq_self.mpr
    intro p hp
    unfold cexStore1 at hp
    obtain ⟨i, _, rfl⟩ := List.mem_map.mp hp
    apply decide_eq_true
    show (0 : ℚ) - FinalFeed.RETENTION_WINDOW < 0
    norm_num [FinalFeed.RETENTION_WINDOW]
  rw [hf]

lemma cex_run2_sel :
    (FinalFeed.selectFinal 0 cexStore1 ((List.range 51).map cexEntry)).1 = [cexEntry 50] := by
  have hmaxpos : (0 : Nat) < FinalFeed.MAX_FINAL_ARTICLES := by
    simp [FinalFeed.MAX_FINAL_ARTICLES]
  have htake := FinalFeed.selectLoop_take 0 cexStore1 ((List.range 51).map cexEntry) [] cexStore1
    (by simpa using hmaxpos)
  simp only [List.nil_append, List.length_nil, Nat.sub_zero] at htake
  have h51 : List.range 51 = List.range 50 ++ [50] := List.range_succ 50
  have hfil : ((List.range 51).map cexEntry).filter
      (fun e => !FinalFeed.containsKey cexStore1 e.article.link) = [cexEntry 50] := by
    rw [h51, List.map_append, List.filter_append]
    have hleft : ((List.range 50).map cexEntry).filter
        (fun e => !FinalFeed.containsKey cexStore1 e.article.link) = [] := by
      apply List.filter_eq_nil.mpr
      intro e he
      obtain ⟨t, ht, rfl⟩ := List.mem_map.mp he
      have ht50 := List.mem_range.mp ht
      have hck : FinalFeed.containsKey cexStore1 (cexEntry t).article.link = true :=
        cex_containsKey_lt t ht50
      simp [hck]
    have hright : (([50] : List Nat).map cexEntry).filter
        (fun e => !FinalFeed.containsKey cexStore1 e.article.link) = [cexEntry 50] := by
      have hck : FinalFeed.containsKey cexStore1 (cexEntry 50).article.link = false :=
        cex_containsKey_50
      simp [List.filter_cons, hck]
    rw [hleft, hright, List.nil_append]
  show (FinalFeed.selectLoop 0 cexStore1 ((List.range 51).map cexEntry) [] cexStore1).1 =
    [cexEntry 50]
  rw [htake, hfil]
  exact List.take_of_length_le (by simp [FinalFeed.MAX_FINAL_ARTICLES])

/-- Claim C6, counterexample: with 51 stories each corroborated by 3 distinct
sources, the first run selects `MAX_FINAL_ARTICLES = 50` representatives and
marks only those seen; re-running the Curator immediately on the unchanged
batch with the persisted Seen-Store selects the remaining story — one newly
selected article, not zero, refuting the idempotence claim as stated. -/
theorem claim_C6_counterexample :
    runCount (FinalFeed.curate_final_feed 0 (some cexSim) cexArticles .missing) = some 50 ∧
    runCount (FinalFeed.curate_final_feed 0 (some cexSim) cexArticles
      (runStore (FinalFeed.curate_final_feed 0 (some cexSim) cexArticles .missing))) = some 1 := by
  constructor
  · rw [cex_run1]
    unfold runCount
    simp
  · rw [cex_run1]
    unfold runStore
    rw [curate_eq 0 (some cexSim) cexArticles (.parsed cexStore1) cexStore1
      cexArticles_ne_nil cex_load2]
    unfold runCount
    rw [cex_clusters, cex_build_aux (List.range 51), cex_sortEntries, cex_run2_sel]
    rfl

/-! ## Witnesses: the claim theorems applied at concrete inputs -/

/-- Witness for C1 at a concrete batch and oracle. -/
theorem claim_C1_witness :
    FinalFeed.cluster_articles (some (fun _ _ => (1 : ℚ))) ([] : List Article) = [] ∧
    ([wArt1, wArt3] : List Article) ≠ [] ∧
    ((FinalFeed.cluster_articles (some (fun _ _ => (1 : ℚ))) [wArt1, wArt3]).flatten).Perm
      [wArt1, wArt3] := by
  have h := claim_C1_clustering_partition (some (fun _ _ => (1 : ℚ))) [wArt1, wArt3]
  have hcl : FinalFeed.cluster_articles (some (fun _ _ => (1 : ℚ))) [wArt1, wArt3] =
      [[wArt1, wArt3]] := by
    with_unfolding_all rfl
  refine ⟨h.1, ?_, h.2.2⟩
  exact h.2.1 [wArt1, wArt3] (by rw [hcl]; simp)

/-- Witness for C3 at a concrete cluster. -/
theorem claim_C3_witness :
    FinalFeed.calculate_importance 7200 [wArt1, wArt2, wArt3] = some wImp ∧
    wImp.feed_count = ([wArt1, wArt2, wArt3].map (fun a => a.source)).toFinset.card ∧
    0 ≤ wImp.recency_score ∧
    wImp.has_breaking = true := by
  have heq : FinalFeed.calculate_importance 7200 [wArt1, wArt2, wArt3] = some wImp := by
    with_unfolding_all rfl
  have h := claim_C3_importance 7200 [wArt1, wArt2, wArt3] wImp heq
  refine ⟨heq, h.1, h.2.2.1, ?_⟩
  exact h.2.2.2.2.mpr ⟨wArt1, by simp, by with_unfolding_all decide⟩

/-- Witness for the amended C5 at a cluster whose two timestamps are both
unparseable, hence both replaced by the aware current time. -/
theorem claim_C5_witness :
    FinalFeed.parse_xml_dateDT 7200 .unparseable = ⟨7200, true⟩ ∧
    (FinalFeed.calculate_importanceDT 7200
      [{ title := "a", link := "m1", pubDate := FinalFeed.parse_xml_dateDT 7200 .unparseable,
         source := "BBC" },
       { title := "b", link := "m2", pubDate := FinalFeed.parse_xml_dateDT 7200 .unparseable,
         source := "The Hindu" }]).isOk = true ∧
    (FinalFeed.select_best_article
      (([{ title := "a", link := "m1", pubDate := FinalFeed.parse_xml_dateDT 7200 .unparseable,
           source := "BBC" },
         { title := "b", link := "m2", pubDate := FinalFeed.parse_xml_dateDT 7200 .unparseable,
           source := "The Hindu" }] : List FinalFeed.ArticleDT).map
        FinalFeed.toArticle)).isSome := by
  exact claim_C5_timestamp_fallback 7200 true
    [{ title := "a", link := "m1", pubDate := FinalFeed.parse_xml_dateDT 7200 .unparseable,
       source := "BBC" },
     { title := "b", link := "m2", pubDate := FinalFeed.parse_xml_dateDT 7200 .unparseable,
       source := "The Hindu" }] (by simp) (by decide)

/-- Witness for C8 at a concrete two-member cluster. -/
theorem claim_C8_witness :
    FinalFeed.select_best_article [wArt3, wArt1] = some wArt1 ∧
    wArt1 ∈ [wArt3, wArt1] ∧
    FinalFeed.repDateGe wArt1 wArt3 ∧
    wArt1 ≠ wArt3 := by
  have hsel : FinalFeed.select_best_article [wArt3, wArt1] = some wArt1 := by
    with_unfolding_all rfl
  have h := claim_C8_representative [wArt3, wArt1] wArt1 hsel
  refine ⟨hsel, h.1, h.2.1 wArt3 (by simp), ?_⟩
  exact h.2.2 wArt1 (by simp) wArt3 (by simp) (by with_unfolding_all decide)

/-- Witness for C9 at concrete scoring inputs and a concrete stale cluster. -/
theorem claim_C9_witness :
    FinalFeed.scoreOf 2 0 0 0 < FinalFeed.scoreOf 3 0 0 0 ∧
    ((⟨33 / 2, 1, 13, 0, false⟩ : FinalFeed.Importance)).recency_score = 0 ∧
    FinalFeed.scoreOf 3 0 0 0 ≤ FinalFeed.scoreOf 3 0 5 0 := by
  have h := claim_C9_monotonicity
  refine ⟨h.1 2 3 0 0 0 (by omega), ?_, h.2.2 3 0 5 0 (by norm_num)⟩
  have himp : FinalFeed.calculate_importance 172800
      [{ title := "x", link := "o1", pubDate := 0, source := "BBC" }] =
      some (⟨33 / 2, 1, 13, 0, false⟩ : FinalFeed.Importance) := by
    with_unfolding_all rfl
  have hmax : (([{ title := "x", link := "o1", pubDate := 0, source := "BBC" }] :
      List Article).map (fun a => a.pubDate)).max? = some 0 := by
    with_unfolding_all decide
  exact (h.2.1 172800 _ _ 0 himp hmax (by norm_num)).1

/-- Witness for C2 at two concrete tied-score entries. -/
theorem claim_C2_witness :
    [wE1, wE2].Sublist (FinalFeed.sortEntries [wE1, wE2]) ∧
    (FinalFeed.selectFinal 0 [] (FinalFeed.sortEntries [wE1, wE2])).1.length ≤
      FinalFeed.MAX_FINAL_ARTICLES := by
  have h := claim_C2_selection 0 [] [wE1, wE2]
  exact ⟨h.2.2.1 wE1 wE2 (le_refl _) (List.Sublist.refl _), h.2.2.2.2.1⟩

/-- Witness for C4 at a concrete stored mapping: an in-window entry survives
the prune, the missing file loads as empty, malformed content raises. -/
theorem claim_C4_witness :
    FinalFeed.load_last_seen 1209600 .missing = .ok [] ∧
    ("a", (1000000 : ℚ)) ∈ ([("a", (1000000 : ℚ)), ("b", (0 : ℚ))]).filter
      (fun e => decide ((1209600 : ℚ) - FinalFeed.RETENTION_WINDOW < e.2)) ∧
    FinalFeed.load_last_seen 1209600 .malformed = .error () := by
  have h := claim_C4_seen_store_load 1209600 [("a", 1000000), ("b", 0)]
  refine ⟨h.1, ?_, h.2.2.2.2⟩
  exact h.2.2.1 ("a", 1000000) (by simp) (by norm_num [FinalFeed.RETENTION_WINDOW])

/-- Witness for C7 at concrete two-source and three-source clusters. -/
theorem claim_C7_witness :
    FinalFeed.buildImportant 7200 [[wArt1, wArt2, wArt3]] = FinalFeed.buildImportant 7200 [] ∧
    FinalFeed.buildImportant 7200 [[wArt1, wArt4, wArt5]] ≠ [] ∧
    FinalFeed.MIN_FEED_COUNT ≤ wEntryFull.importance.feed_count := by
  have h1 := claim_C7_corroboration_threshold 7200 [wArt1, wArt2, wArt3] [] [] []
  have h2 := claim_C7_corroboration_threshold 7200 [wArt1, wArt4, wArt5] []
    [[wArt1, wArt4, wArt5]] []
  have hsel : (FinalFeed.selectFinal 7200 []
      (FinalFeed.sortEntries (FinalFeed.buildImportant 7200 [[wArt1, wArt4, wArt5]]))).1 =
      [wEntryFull] := by
    with_unfolding_all rfl
  refine ⟨h1.1 (by with_unfolding_all decide), ?_, ?_⟩
  · obtain ⟨imp, best, _, _, heq⟩ := h2.2.1 (by with_unfolding_all decide)
    intro hcontr
    rw [hcontr] at heq
    simp at heq
  · exact h2.2.2 wEntryFull (by rw [hsel]; simp)

/-- Witness for the amended C6 at a single corroborated story: the first run
selects it and the immediate second run selects nothing. -/
theorem claim_C6_witness :
    FinalFeed.curate_final_feed 7200 (some (fun _ _ => (1 : ℚ))) [wArt1, wArt4, wArt5] .missing =
      .ok ([wEntryFull], .parsed [("w1", 7200)]) ∧
    FinalFeed.curate_final_feed 7200 (some (fun _ _ => (1 : ℚ))) [wArt1, wArt4, wArt5]
      (.parsed [("w1", 7200)]) = .ok ([], .parsed [("w1", 7200)]) ∧
    ([] : List FinalFeed.Entry) = [] := by
  have hr1 : FinalFeed.curate_final_feed 7200 (some (fun _ _ => (1 : ℚ)))
      [wArt1, wArt4, wArt5] .missing = .ok ([wEntryFull], .parsed [("w1", 7200)]) := by
    with_unfolding_all rfl
  have hr2 : FinalFeed.curate_final_feed 7200 (some (fun _ _ => (1 : ℚ)))
      [wArt1, wArt4, wArt5] (.parsed [("w1", 7200)]) = .ok ([], .parsed [("w1", 7200)]) := by
    with_unfolding_all rfl
  refine ⟨hr1, hr2, ?_⟩
  exact claim_C6_idempotence 7200 (some (fun _ _ => (1 : ℚ))) [wArt1, wArt4, wArt5] .missing
    [wEntryFull] [] (.parsed [("w1", 7200)]) (.parsed [("w1", 7200)]) hr1 hr2
    (by with_unfolding_all decide)
